import Mathlib

/-!
# Field-type patcher (`patch/field_type.go`)

A shallow embedding of the rewrite engine that retargets generated fields to an
override type: the zero-value synthesizer, the conversion test, the
return-statement converter, the declaration patcher, the usage-site patcher
and the override-name check, followed by the properties established about
them.

* Go strings are modelled by `String`, with `strings.HasPrefix` and
  `strings.TrimPrefix` defined on the underlying character lists.
* Syntax trees are modelled by the inductive types `Expr`, `Stmt` and `Field`
  and the structures `FuncType` and `FuncDecl`; a `*BlockStmt` or `*FieldList`
  child is represented by its list. Of the positions stored in the Go nodes
  only `Ident.NamePos` is kept, because it is what tells an identifier renamed
  in place from a freshly built one.
* A method that mutates the tree returns the mutated value; a run-time panic
  is the result `none`.
* The usage-site patcher compares node pointers and asks for parents. The
  syntax tree has no shared nodes, so a pointer is modelled by the slots that
  lead from the node up to the root (`Ptr`): pointer equality is equality of
  these lists, and the parent index `findParentNode`, which is not part of the
  file, drops the innermost slot.
-/

namespace Patch

/-- Go `strings.HasPrefix`. -/
def hasPrefix (s pre : String) : Bool :=
  pre.data.isPrefixOf s.data

/-- Go `strings.TrimPrefix`: `s` without the leading `pre`, or `s` itself when
`s` does not start with `pre`. -/
def trimPrefix (s pre : String) : String :=
  if hasPrefix s pre then ⟨s.data.drop pre.data.length⟩ else s

/-- The tokens of `go/token` that occur as literal kinds and operators. -/
inductive Token
  | INT | FLOAT | IMAG | CHAR | STRING
  | ADD | SUB | MUL | QUO | REM
  | AND | OR | XOR | LAND | LOR | ARROW
  | EQL | NEQ | LSS | GTR | LEQ | GEQ | NOT
  | ASSIGN | DEFINE
  deriving DecidableEq

mutual
/-- Expressions of `go/ast` (the `ast.Expr` implementations). -/
inductive Expr
  | ident (namePos : Nat) (name : String)
  | basicLit (kind : Token) (value : String)
  | compositeLit (type : Option Expr) (elts : List Expr)
  | callExpr (fn : Expr) (args : List Expr)
  | selectorExpr (x : Expr) (sel : Expr)
  | starExpr (x : Expr)
  | unaryExpr (op : Token) (x : Expr)
  | binaryExpr (x : Expr) (op : Token) (y : Expr)
  | keyValueExpr (key : Expr) (value : Expr)
  | parenExpr (x : Expr)
  | indexExpr (x : Expr) (index : Expr)
  | arrayType (len : Option Expr) (elt : Expr)
  | mapType (key : Expr) (value : Expr)
  | funcLit (params : List Field) (results : Option (List Field)) (body : List Stmt)
/-- Statements of `go/ast` (the `ast.Stmt` implementations). -/
inductive Stmt
  | returnStmt (results : List Expr)
  | blockStmt (list : List Stmt)
  | exprStmt (x : Expr)
  | assignStmt (lhs : List Expr) (tok : Token) (rhs : List Expr)
  | ifStmt (init : Option Stmt) (cond : Expr) (body : List Stmt) (els : Option Stmt)
  | forStmt (init : Option Stmt) (cond : Option Expr) (post : Option Stmt) (body : List Stmt)
/-- An `ast.Field`: names (possibly none) sharing one declared type. -/
inductive Field
  | mk (names : List String) (type : Expr)
end

/-- The `isZeroValue` function: whether `expr` is recognised as a zero value of
the type named `typ`. A basic literal is compared by its text under the
category of `typ`; an identifier is accepted exactly when it is named `nil`. -/
def isZeroValue (expr : Expr) (typ : String) : Bool :=
  match expr with
  | .basicLit _ value =>
    if typ = "string" then value == "\"\""
    else if typ = "int" ∨ typ = "int8" ∨ typ = "int16" ∨ typ = "int32" ∨ typ = "int64" then
      value == "0"
    else if typ = "uint" ∨ typ = "uint8" ∨ typ = "uint16" ∨ typ = "uint32" ∨ typ = "uint64" then
      value == "0"
    else if typ = "float32" ∨ typ = "float64" then value == "0" || value == "0.0"
    else if typ = "bool" then value == "false"
    else false
  | .ident _ name => name == "nil"
  | _ => false

/-- The `createZeroValue` function: the zero value built for the type named
`typ`. Fresh nodes carry no position. -/
def createZeroValue (typ : String) : Expr :=
  if typ = "string" then .basicLit .STRING "\"\""
  else if typ = "int" ∨ typ = "int8" ∨ typ = "int16" ∨ typ = "int32" ∨ typ = "int64" then
    .basicLit .INT "0"
  else if typ = "uint" ∨ typ = "uint8" ∨ typ = "uint16" ∨ typ = "uint32" ∨ typ = "uint64" then
    .basicLit .INT "0"
  else if typ = "float32" ∨ typ = "float64" then .basicLit .FLOAT "0.0"
  else if typ = "bool" then .ident 0 "false"
  else if hasPrefix typ "*" then .ident 0 "nil"
  else .compositeLit (some (.ident 0 typ)) []

/-- The `needsTypeConversion` function. -/
def needsTypeConversion (fromT toT : String) : Bool :=
  if fromT = toT then false
  else
    let fromIsPtr := hasPrefix fromT "*"
    let toIsPtr := hasPrefix toT "*"
    if fromIsPtr != toIsPtr then true
    else
      let fromBase := trimPrefix fromT "*"
      let toBase := trimPrefix toT "*"
      fromBase != toBase

/-- The `convertReturnValue` method. -/
def convertReturnValue (expr : Expr) (originalType newType : String) : Expr :=
  if isZeroValue expr originalType then createZeroValue newType
  else if needsTypeConversion originalType newType then
    .callExpr (.ident 0 newType) [expr]
  else expr

/-- An `ast.FuncType`; `results` is `none` when the function declares no
result list (`Results == nil`). -/
structure FuncType where
  params : List Field
  results : Option (List Field)

/-- An `ast.FuncDecl`; `body` is `none` for a declaration without a body. -/
structure FuncDecl where
  recv : Option (List Field)
  name : String
  type : FuncType
  body : Option (List Stmt)

/-- The closure `castDecl` of `patchTypeDef`: the field after the attempt and
whether its declared type had a supported shape. An identifier is renamed in
place; an array or pointer type is replaced by a fresh identifier. -/
def castDecl (fieldType : String) (v : Field) : Field × Bool :=
  match v with
  | .mk names (.ident pos _) => (.mk names (.ident pos fieldType), true)
  | .mk names (.arrayType _ _) => (.mk names (.ident 0 fieldType), true)
  | .mk names (.starExpr _) => (.mk names (.ident 0 fieldType), true)
  | .mk names t => (.mk names t, false)

mutual
/-- The walk `astutil.Apply` performs for `patchFunctionBody`, on an
expression. The callback runs on a node before the node's children are
visited and only changes return statements, so every other node is rebuilt
from its walked children. -/
def applyExpr (originalType newType : String) : Expr → Expr
  | .ident pos name => .ident pos name
  | .basicLit kind value => .basicLit kind value
  | .compositeLit type elts =>
    .compositeLit (applyOptExpr originalType newType type) (applyExprs originalType newType elts)
  | .callExpr fn args =>
    .callExpr (applyExpr originalType newType fn) (applyExprs originalType newType args)
  | .selectorExpr x sel =>
    .selectorExpr (applyExpr originalType newType x) (applyExpr originalType newType sel)
  | .starExpr x => .starExpr (applyExpr originalType newType x)
  | .unaryExpr op x => .unaryExpr op (applyExpr originalType newType x)
  | .binaryExpr x op y =>
    .binaryExpr (applyExpr originalType newType x) op (applyExpr originalType newType y)
  | .keyValueExpr key value =>
    .keyValueExpr (applyExpr originalType newType key) (applyExpr originalType newType value)
  | .parenExpr x => .parenExpr (applyExpr originalType newType x)
  | .indexExpr x index =>
    .indexExpr (applyExpr originalType newType x) (applyExpr originalType newType index)
  | .arrayType len elt =>
    .arrayType (applyOptExpr originalType newType len) (applyExpr originalType newType elt)
  | .mapType key value =>
    .mapType (applyExpr originalType newType key) (applyExpr originalType newType value)
  | .funcLit params results body =>
    .funcLit (applyFields originalType newType params)
      (applyOptFields originalType newType results) (applyStmts originalType newType body)
/-- The walk on an optional expression (a child that may be `nil`). -/
def applyOptExpr (originalType newType : String) : Option Expr → Option Expr
  | none => none
  | some e => some (applyExpr originalType newType e)
/-- The walk on a list of expressions. -/
def applyExprs (originalType newType : String) : List Expr → List Expr
  | [] => []
  | e :: es => applyExpr originalType newType e :: applyExprs originalType newType es
/-- The results of a return statement: the callback has replaced every result
`r` by `convertReturnValue r originalType newType` when the walk enters them.
A synthesized zero value has no statement below it; in the two other cases the
walk goes on into `r` itself, under the conversion call or in place. -/
def applyResults (originalType newType : String) : List Expr → List Expr
  | [] => []
  | r :: rs =>
    (if isZeroValue r originalType then createZeroValue newType
     else if needsTypeConversion originalType newType then
       .callExpr (.ident 0 newType) [applyExpr originalType newType r]
     else applyExpr originalType newType r) :: applyResults originalType newType rs
/-- The walk on a statement. -/
def applyStmt (originalType newType : String) : Stmt → Stmt
  | .returnStmt results => .returnStmt (applyResults originalType newType results)
  | .blockStmt list => .blockStmt (applyStmts originalType newType list)
  | .exprStmt x => .exprStmt (applyExpr originalType newType x)
  | .assignStmt lhs tok rhs =>
    .assignStmt (applyExprs originalType newType lhs) tok (applyExprs originalType newType rhs)
  | .ifStmt init cond body els =>
    .ifStmt (applyOptStmt originalType newType init) (applyExpr originalType newType cond)
      (applyStmts originalType newType body) (applyOptStmt originalType newType els)
  | .forStmt init cond post body =>
    .forStmt (applyOptStmt originalType newType init) (applyOptExpr originalType newType cond)
      (applyOptStmt originalType newType post) (applyStmts originalType newType body)
/-- The walk on an optional statement. -/
def applyOptStmt (originalType newType : String) : Option Stmt → Option Stmt
  | none => none
  | some s => some (applyStmt originalType newType s)
/-- The walk on a list of statements. -/
def applyStmts (originalType newType : String) : List Stmt → List Stmt
  | [] => []
  | s :: ss => applyStmt originalType newType s :: applyStmts originalType newType ss
/-- The walk on a field (its declared type). -/
def applyField (originalType newType : String) : Field → Field
  | .mk names type => .mk names (applyExpr originalType newType type)
/-- The walk on a field list. -/
def applyFields (originalType newType : String) : List Field → List Field
  | [] => []
  | f :: fs => applyField originalType newType f :: applyFields originalType newType fs
/-- The walk on an optional field list. -/
def applyOptFields (originalType newType : String) : Option (List Field) → Option (List Field)
  | none => none
  | some fs => some (applyFields originalType newType fs)
end

/-- What `patchFunctionBody` reads as the original return type from the first
entry of the result list: the name of an identifier, `*` and the name for a
pointer to an identifier, and the empty string otherwise. -/
def originalTypeOf (list : List Field) : String :=
  match list with
  | .mk _ (.ident _ name) :: _ => name
  | .mk _ (.starExpr (.ident _ name)) :: _ => "*" ++ name
  | _ => ""

/-- The `patchFunctionBody` method. `none` is the run-time panic of reading
`fn.Type.Results.List` through a nil `Results`. -/
def patchFunctionBody (fn : FuncDecl) (newType : String) : Option FuncDecl :=
  match fn.body with
  | none => some fn
  | some body =>
    match fn.type.results with
    | none => none
    | some list =>
      let originalType := originalTypeOf list
      some { fn with body := some (applyStmts originalType newType body) }

/-- An `ast.Node` value; `other` stands for the node kinds that are not
modelled (files, general declarations, ...). -/
inductive Node
  | expr (e : Expr)
  | stmt (s : Stmt)
  | field (f : Field)
  | funcDecl (n : FuncDecl)
  | other (kind : String)

/-- What `id.Obj.Decl` holds when it is set: a field or any other declaration. -/
inductive ObjDecl
  | field (v : Field)
  | other

/-- The `types.Type` of the object, as far as the patcher tells types apart:
a basic type with its name, a pointer with the printed element type, a
signature with the printed types of its results, or any other type. -/
inductive TypesType
  | basic (name : String)
  | pointer (elem : String)
  | signature (results : List String)
  | other

/-- The declaration site handed to `patchTypeDef`: the declaration recorded in
the identifier (`id.Obj.Decl`, `none` when `id.Obj` or the declaration is nil),
the type of the object and the parent node of the identifier. The field and
the function declaration are the pieces of the tree the method mutates. -/
structure DefSite where
  objDecl : Option ObjDecl
  objType : TypesType
  parent : Option Node

/-- The `patchTypeDef` method; `fieldTypes` is the outcome of the lookup
`p.fieldTypes[obj]`. `none` is a run-time panic. -/
def patchTypeDef (fieldTypes : Option String) (site : DefSite) : Option DefSite :=
  match fieldTypes with
  | none => some site
  | some fieldType =>
    match site.objDecl with
    | some (.field v) => some { site with objDecl := some (.field (castDecl fieldType v).1) }
    | some .other => some site
    | none =>
      match site.objType with
      | .signature _ =>
        match site.parent with
        | some (.funcDecl n) =>
          match n.type.results with
          | none => none
          | some list =>
            if list.length ≠ 1 then some site
            else
              match list with
              | r :: rest =>
                let n1 : FuncDecl :=
                  { n with type := { n.type with results := some ((castDecl fieldType r).1 :: rest) } }
                (patchFunctionBody n1 fieldType).map fun n2 =>
                  { site with parent := some (.funcDecl n2) }
              | [] => none
        | _ => some site
      | _ => some site

/-- The child slots of the modelled nodes, named after the Go struct fields;
a list-valued field carries the index. A `*BlockStmt` or `*FieldList` child is
represented by its list, so `body i` is `Body.List[i]`. -/
inductive Slot
  | type | elts (i : Nat) | fn | args (i : Nat) | x | sel | y | key | value
  | index | len | elt | params (i : Nat) | results (i : Nat) | body (i : Nat)
  | list (i : Nat) | lhs (i : Nat) | rhs (i : Nat) | init | cond | els | post
  | recv (i : Nat)
  deriving DecidableEq

/-- A node pointer: the slots leading from the node up to the root of the
tree, innermost first. Two pointers are equal exactly when they denote the
same node of the tree. -/
abbrev Ptr := List Slot

/-- The parent index `findParentNode`, modelled on pointers: the parent of a
node is reached by dropping the innermost slot, and the root has none. -/
def findParentNode (node : Ptr) : Option Ptr :=
  match node with
  | [] => none
  | _ :: parent => some parent

/-- The child of an expression in a slot, if the expression has that slot
filled. -/
def childExpr (e : Expr) (s : Slot) : Option Node :=
  match e with
  | .ident _ _ => none
  | .basicLit _ _ => none
  | .compositeLit type elts =>
    match s with
    | .type => type.map .expr
    | .elts i => elts[i]?.map .expr
    | _ => none
  | .callExpr fn args =>
    match s with
    | .fn => some (.expr fn)
    | .args i => args[i]?.map .expr
    | _ => none
  | .selectorExpr x sel =>
    match s with
    | .x => some (.expr x)
    | .sel => some (.expr sel)
    | _ => none
  | .starExpr x =>
    match s with
    | .x => some (.expr x)
    | _ => none
  | .unaryExpr _ x =>
    match s with
    | .x => some (.expr x)
    | _ => none
  | .binaryExpr x _ y =>
    match s with
    | .x => some (.expr x)
    | .y => some (.expr y)
    | _ => none
  | .keyValueExpr key value =>
    match s with
    | .key => some (.expr key)
    | .value => some (.expr value)
    | _ => none
  | .parenExpr x =>
    match s with
    | .x => some (.expr x)
    | _ => none
  | .indexExpr x index =>
    match s with
    | .x => some (.expr x)
    | .index => some (.expr index)
    | _ => none
  | .arrayType len elt =>
    match s with
    | .len => len.map .expr
    | .elt => some (.expr elt)
    | _ => none
  | .mapType key value =>
    match s with
    | .key => some (.expr key)
    | .value => some (.expr value)
    | _ => none
  | .funcLit params results body =>
    match s with
    | .params i => params[i]?.map .field
    | .results i => results.bind fun l => l[i]?.map .field
    | .body i => body[i]?.map .stmt
    | _ => none

/-- The child of a statement in a slot, if the statement has that slot filled. -/
def childStmt (t : Stmt) (s : Slot) : Option Node :=
  match t with
  | .returnStmt results =>
    match s with
    | .results i => results[i]?.map .expr
    | _ => none
  | .blockStmt list =>
    match s with
    | .list i => list[i]?.map .stmt
    | _ => none
  | .exprStmt x =>
    match s with
    | .x => some (.expr x)
    | _ => none
  | .assignStmt lhs _ rhs =>
    match s with
    | .lhs i => lhs[i]?.map .expr
    | .rhs i => rhs[i]?.map .expr
    | _ => none
  | .ifStmt init cond body els =>
    match s with
    | .init => init.map .stmt
    | .cond => some (.expr cond)
    | .body i => body[i]?.map .stmt
    | .els => els.map .stmt
    | _ => none
  | .forStmt init cond post body =>
    match s with
    | .init => init.map .stmt
    | .cond => cond.map .expr
    | .post => post.map .stmt
    | .body i => body[i]?.map .stmt
    | _ => none

/-- The child of a function declaration in a slot. -/
def childFuncDecl (n : FuncDecl) (s : Slot) : Option Node :=
  match s with
  | .recv i => n.recv.bind fun l => l[i]?.map .field
  | .params i => n.type.params[i]?.map .field
  | .results i => n.type.results.bind fun l => l[i]?.map .field
  | .body i => n.body.bind fun l => l[i]?.map .stmt
  | _ => none

/-- The child of a node in a slot, if the node has that slot filled. -/
def child (n : Node) (s : Slot) : Option Node :=
  match n with
  | .expr e => childExpr e s
  | .stmt t => childStmt t s
  | .field (.mk _ type) =>
    match s with
    | .type => some (.expr type)
    | _ => none
  | .funcDecl d => childFuncDecl d s
  | .other _ => none

/-- A list with the entry at index `i` replaced; `none` when there is no such
entry. -/
def setEntry {α : Type} (l : List α) (i : Nat) (a : α) : Option (List α) :=
  if i < l.length then some (l.set i a) else none

/-- An expression with the child in a slot replaced; `none` when the slot is
not filled or the new child has the wrong sort for it. -/
def setChildExpr (e : Expr) (s : Slot) (c : Node) : Option Expr :=
  match e with
  | .ident _ _ => none
  | .basicLit _ _ => none
  | .compositeLit type elts =>
    match s, c with
    | .type, .expr e1 => type.map fun _ => .compositeLit (some e1) elts
    | .elts i, .expr e1 => (setEntry elts i e1).map fun l => .compositeLit type l
    | _, _ => none
  | .callExpr fn args =>
    match s, c with
    | .fn, .expr e1 => some (.callExpr e1 args)
    | .args i, .expr e1 => (setEntry args i e1).map fun l => .callExpr fn l
    | _, _ => none
  | .selectorExpr x sel =>
    match s, c with
    | .x, .expr e1 => some (.selectorExpr e1 sel)
    | .sel, .expr e1 => some (.selectorExpr x e1)
    | _, _ => none
  | .starExpr _ =>
    match s, c with
    | .x, .expr e1 => some (.starExpr e1)
    | _, _ => none
  | .unaryExpr op _ =>
    match s, c with
    | .x, .expr e1 => some (.unaryExpr op e1)
    | _, _ => none
  | .binaryExpr x op y =>
    match s, c with
    | .x, .expr e1 => some (.binaryExpr e1 op y)
    | .y, .expr e1 => some (.binaryExpr x op e1)
    | _, _ => none
  | .keyValueExpr key value =>
    match s, c with
    | .key, .expr e1 => some (.keyValueExpr e1 value)
    | .value, .expr e1 => some (.keyValueExpr key e1)
    | _, _ => none
  | .parenExpr _ =>
    match s, c with
    | .x, .expr e1 => some (.parenExpr e1)
    | _, _ => none
  | .indexExpr x index =>
    match s, c with
    | .x, .expr e1 => some (.indexExpr e1 index)
    | .index, .expr e1 => some (.indexExpr x e1)
    | _, _ => none
  | .arrayType len elt =>
    match s, c with
    | .len, .expr e1 => len.map fun _ => .arrayType (some e1) elt
    | .elt, .expr e1 => some (.arrayType len e1)
    | _, _ => none
  | .mapType key value =>
    match s, c with
    | .key, .expr e1 => some (.mapType e1 value)
    | .value, .expr e1 => some (.mapType key e1)
    | _, _ => none
  | .funcLit params results body =>
    match s, c with
    | .params i, .field f => (setEntry params i f).map fun l => .funcLit l results body
    | .results i, .field f =>
      results.bind fun r => (setEntry r i f).map fun l => .funcLit params (some l) body
    | .body i, .stmt t => (setEntry body i t).map fun l => .funcLit params results l
    | _, _ => none

/-- A statement with the child in a slot replaced. -/
def setChildStmt (t : Stmt) (s : Slot) (c : Node) : Option Stmt :=
  match t with
  | .returnStmt results =>
    match s, c with
    | .results i, .expr e1 => (setEntry results i e1).map fun l => .returnStmt l
    | _, _ => none
  | .blockStmt list =>
    match s, c with
    | .list i, .stmt t1 => (setEntry list i t1).map fun l => .blockStmt l
    | _, _ => none
  | .exprStmt _ =>
    match s, c with
    | .x, .expr e1 => some (.exprStmt e1)
    | _, _ => none
  | .assignStmt lhs tok rhs =>
    match s, c with
    | .lhs i, .expr e1 => (setEntry lhs i e1).map fun l => .assignStmt l tok rhs
    | .rhs i, .expr e1 => (setEntry rhs i e1).map fun l => .assignStmt lhs tok l
    | _, _ => none
  | .ifStmt init cond body els =>
    match s, c with
    | .init, .stmt t1 => init.map fun _ => .ifStmt (some t1) cond body els
    | .cond, .expr e1 => some (.ifStmt init e1 body els)
    | .body i, .stmt t1 => (setEntry body i t1).map fun l => .ifStmt init cond l els
    | .els, .stmt t1 => els.map fun _ => .ifStmt init cond body (some t1)
    | _, _ => none
  | .forStmt init cond post body =>
    match s, c with
    | .init, .stmt t1 => init.map fun _ => .forStmt (some t1) cond post body
    | .cond, .expr e1 => cond.map fun _ => .forStmt init (some e1) post body
    | .post, .stmt t1 => post.map fun _ => .forStmt init cond (some t1) body
    | .body i, .stmt t1 => (setEntry body i t1).map fun l => .forStmt init cond post l
    | _, _ => none

/-- A function declaration with the child in a slot replaced. -/
def setChildFuncDecl (n : FuncDecl) (s : Slot) (c : Node) : Option FuncDecl :=
  match s, c with
  | .recv i, .field f =>
    n.recv.bind fun r => (setEntry r i f).map fun l => { n with recv := some l }
  | .params i, .field f =>
    (setEntry n.type.params i f).map fun l => { n with type := { n.type with params := l } }
  | .results i, .field f =>
    n.type.results.bind fun r =>
      (setEntry r i f).map fun l => { n with type := { n.type with results := some l } }
  | .body i, .stmt t =>
    n.body.bind fun b => (setEntry b i t).map fun l => { n with body := some l }
  | _, _ => none

/-- The node with the child in a slot replaced; `none` when the node has no
such slot filled or the new child has the wrong sort for it. -/
def setChild (n : Node) (s : Slot) (c : Node) : Option Node :=
  match n with
  | .expr e => (setChildExpr e s c).map .expr
  | .stmt t => (setChildStmt t s c).map .stmt
  | .field (.mk names _) =>
    match s, c with
    | .type, .expr e1 => some (.field (.mk names e1))
    | _, _ => none
  | .funcDecl d => (setChildFuncDecl d s c).map .funcDecl
  | .other _ => none

/-- The node reached from `n` along the slots `path`, outermost first. -/
def getPath (n : Node) (path : List Slot) : Option Node :=
  match path with
  | [] => some n
  | s :: rest => (child n s).bind fun c => getPath c rest

/-- The tree `n` with the node at the end of `path` (outermost first) replaced. -/
def setPath (n : Node) (path : List Slot) (new : Node) : Option Node :=
  match path with
  | [] => some new
  | s :: rest => (child n s).bind fun c => (setPath c rest new).bind fun c1 => setChild n s c1

/-- Dereferencing a pointer in the tree rooted at `root`. -/
def getAt (root : Node) (p : Ptr) : Option Node :=
  getPath root p.reverse

/-- Storing a node through a pointer. -/
def setAt (root : Node) (p : Ptr) (new : Node) : Option Node :=
  setPath root p.reverse new

/-- The closure `cast` of `patchTypeUsage`: a conversion call with head
`asType`, parenthesized when it starts with the pointer marker. -/
def cast (asType : String) (expr : Expr) : Expr :=
  let asType := if hasPrefix asType "*" then "(" ++ asType ++ ")" else asType
  .callExpr (.ident 0 asType) [expr]

/-- The assignment `slot = cast(asType, slot)` on the expression slot that
`slot` points to. -/
def castSlot (root : Node) (slot : Ptr) (asType : String) : Node :=
  match getAt root slot with
  | some (.expr e) => (setAt root slot (.expr (cast asType e))).getD root
  | _ => root

/-- The loop `for i := range list { if list[i] == target { ... } }`: the first
index below `n` whose slot pointer is `target`. -/
def findSlot (n : Nat) (slotAt : Nat → Ptr) (target : Ptr) : Option Nat :=
  (List.range n).find? fun i => slotAt i == target

/-- The pre-check loop of `patchTypeUsage`: walk up from `node` to the nearest
enclosing function declaration and tell whether it is named `Get` followed by
the name of the identifier. -/
def insideGetter (root : Node) (idName : String) (node : Ptr) : Bool :=
  match node with
  | [] => false
  | _ :: parent =>
    match getAt root parent with
    | some (.funcDecl fn) => fn.name == "Get" ++ idName
    | _ => insideGetter root idName parent

/-- The original and desired type names `patchTypeUsage` derives from the type
of the object; `none` when it returns because a signature does not have
exactly one result. -/
def typePair (objType : TypesType) (desiredType : String) : Option (String × String) :=
  match objType with
  | .basic name => some (name, desiredType)
  | .pointer elem => some ("*" ++ elem, "*" ++ desiredType)
  | .signature results =>
    if results.length ≠ 1 then none
    else
      match results with
      | r :: _ => some (r, desiredType)
      | [] => none
  | .other => some ("", desiredType)

/-- The recursive closure `patch` of `patchTypeUsage`, called on the parent of
the tracked expression `expr`; the captured variables `desiredType`,
`originalType` and `expr` are passed along. The result is the tree after the
mutation. -/
def patch (root : Node) (selectorExpr : Ptr) (desiredType originalType : String)
    (expr : Ptr) : Node :=
  match expr with
  | [] => root
  | slot :: node =>
    match getAt root node with
    | some (.expr (.starExpr _)) =>
      patch root selectorExpr (trimPrefix desiredType "*") (trimPrefix originalType "*") node
    | some (.expr (.unaryExpr op _)) =>
      if op ≠ .AND then root
      else patch root selectorExpr ("*" ++ desiredType) ("*" ++ originalType) node
    | some (.stmt (.assignStmt lhs _ rhs)) =>
      if lhs.length ≠ rhs.length then root
      else
        match findSlot lhs.length (fun i => .lhs i :: node) (slot :: node) with
        | some i => castSlot root (.rhs i :: node) desiredType
        | none =>
          match findSlot rhs.length (fun i => .rhs i :: node) (slot :: node) with
          | some i => castSlot root (.rhs i :: node) originalType
          | none => root
    | some (.expr (.callExpr _ args)) =>
      match findSlot args.length (fun i => .args i :: node) (slot :: node) with
      | some i => castSlot root (.args i :: node) originalType
      | none =>
        let parent := findParentNode node
        let viaAssign : Option Node :=
          match parent with
          | some up =>
            match getAt root up with
            | some (.stmt (.assignStmt _ _ rhs)) =>
              if .fn :: node == slot :: node then
                (findSlot rhs.length (fun i => .rhs i :: up) node).map fun i =>
                  castSlot root (.rhs i :: up) originalType
              else none
            | _ => none
          | none => none
        let viaCall : Option Node :=
          match parent with
          | some up =>
            match getAt root up with
            | some (.expr (.callExpr _ outer)) =>
              (findSlot outer.length (fun i => .args i :: up) node).map fun i =>
                castSlot root (.args i :: up) originalType
            | _ => none
          | none => none
        let viaArgs : Option Node :=
          (findSlot args.length (fun i => .args i :: node) (slot :: node)).bind fun i =>
            match getAt root selectorExpr with
            | some (.expr sel) => setAt root (.args i :: node) (.expr (cast originalType sel))
            | _ => none
        ((viaAssign.orElse fun _ => viaCall).orElse fun _ => viaArgs).getD root
    | some (.expr (.binaryExpr _ _ _)) =>
      let root1 :=
        if .x :: node == slot :: node then castSlot root (.x :: node) originalType else root
      if .y :: node == slot :: node then castSlot root1 (.y :: node) originalType else root1
    | _ => root

/-- The `patchTypeUsage` method on the identifier that `id` points to in the
tree `root`; `fieldTypes` is the outcome of the lookup `p.fieldTypes[obj]` and
`objType` the type of the object. The result is the tree after the mutation. -/
def patchTypeUsage (fieldTypes : Option String) (objType : TypesType) (root : Node)
    (id : Ptr) : Node :=
  match fieldTypes with
  | none => root
  | some desiredType =>
    match getAt root id with
    | some (.expr (.ident _ idName)) =>
      if insideGetter root idName id then root
      else
        match typePair objType desiredType with
        | none => root
        | some (originalType, desiredType) =>
          match findParentNode id with
          | none => root
          | some expr =>
            match getAt root expr with
            | some (.expr (.keyValueExpr _ _)) =>
              if .key :: expr == id then castSlot root (.value :: expr) desiredType
              else if .value :: expr == id then castSlot root (.value :: expr) originalType
              else root
            | some (.expr (.selectorExpr _ _)) =>
              patch root expr desiredType originalType expr
            | _ => root
    | _ => root

/-- Go `strings.Contains`: whether `sub` occurs in `s`. -/
def contains (s sub : String) : Bool :=
  s.data.tails.any fun t => sub.data.isPrefixOf t

/-- The `isTypeValid` function. -/
def isTypeValid (typeName : String) : Bool :=
  contains typeName "." ||
    contains typeName "/" ||
    contains typeName "[]" ||
    contains typeName "*"

/-- Whether two nodes are of the same sort (expression, statement, field,
function declaration, other), so that one may stand where the other does. -/
def sameSort (a b : Node) : Bool :=
  match a, b with
  | .expr _, .expr _ => true
  | .stmt _, .stmt _ => true
  | .field _, .field _ => true
  | .funcDecl _, .funcDecl _ => true
  | .other _, .other _ => true
  | _, _ => false

/-! ## Sample declarations -/

/-- The expression `x.Field`. -/
def xField : Expr := .selectorExpr (.ident 31 "x") (.ident 33 "Field")

/-- The accessor `func (x *Msg) GetField() <result> { <body> }`, with its
result list and body given. -/
def getField (results : Option (List Field)) (body : Option (List Stmt)) : FuncDecl :=
  { recv := some [.mk ["x"] (.starExpr (.ident 9 "Msg"))]
    name := "GetField"
    type := { params := [], results := results }
    body := body }

/-- The declaration site of an accessor: its name has no recorded declaration,
the object is a function and the parent of the name is the declaration. -/
def getterSite (sig : List String) (n : FuncDecl) : DefSite :=
  { objDecl := none, objType := .signature sig, parent := some (.funcDecl n) }

/-- The package-qualified type `pkg.T`. -/
def pkgT : Expr := .selectorExpr (.ident 21 "pkg") (.ident 25 "T")

/-- The map type `map[string]int`. -/
def mapStringInt : Expr := .mapType (.ident 25 "string") (.ident 32 "int")

/-- The composite literal `Msg{Field: value}`. -/
def msgLit : Node :=
  .expr (.compositeLit (some (.ident 1 "Msg"))
    [.keyValueExpr (.ident 5 "Field") (.ident 12 "value")])

/-- The statement `f(x.Field)`. -/
def callF : Node := .stmt (.exprStmt (.callExpr (.ident 1 "f") [xField]))

/-- The statement `f(&x.Field)`. -/
def callAddr : Node := .stmt (.exprStmt (.callExpr (.ident 1 "f") [.unaryExpr .AND xField]))

/-- The statement `*x.Field = v`. -/
def assignDeref : Node := .stmt (.assignStmt [.starExpr xField] .ASSIGN [.ident 40 "v"])

/-- The statement `x.Field = v`. -/
def assignField : Node := .stmt (.assignStmt [xField] .ASSIGN [.ident 40 "v"])

/-- The statement `v = x.Field`. -/
def assignRead : Node := .stmt (.assignStmt [.ident 20 "v"] .ASSIGN [xField])

/-- The statement `ok = x.Field == y`. -/
def compareField : Node :=
  .stmt (.assignStmt [.ident 10 "ok"] .ASSIGN [.binaryExpr xField .EQL (.ident 50 "y")])

/-- The accessor `func (x *Msg) GetField() string { return f(x.Field) }`. -/
def getFieldDecl : FuncDecl :=
  getField (some [.mk [] (.ident 21 "string")])
    (some [.returnStmt [.callExpr (.ident 28 "f") [xField]]])

/-! ## Strings -/

theorem hasPrefix_star_append (t : String) : hasPrefix ("*" ++ t) "*" = true := by
  simp [hasPrefix, String.data_append]

theorem trimPrefix_star_append (t : String) : trimPrefix ("*" ++ t) "*" = t := by
  simp [trimPrefix, hasPrefix, String.data_append]

theorem star_append_inj (t u : String) : "*" ++ t = "*" ++ u ↔ t = u := by
  constructor
  · intro h
    have h1 := congrArg String.data h
    simp [String.data_append] at h1
    exact String.ext h1
  · intro h
    rw [h]

theorem star_append_ne_self (t : String) : "*" ++ t ≠ t := by
  intro h
  have h1 := congrArg (fun s => s.data.length) h
  simp [String.data_append] at h1

theorem hasPrefix_star_iff (s : String) : hasPrefix s "*" = true ↔ ∃ t, s = "*" ++ t := by
  constructor
  · intro h
    obtain ⟨l⟩ := s
    cases l with
    | nil => simp [hasPrefix] at h
    | cons c cs =>
      simp [hasPrefix] at h
      refine ⟨⟨cs⟩, ?_⟩
      apply String.ext
      simp [String.data_append, ← h]
  · rintro ⟨t, rfl⟩
    exact hasPrefix_star_append t

theorem trimPrefix_of_not_hasPrefix (s pre : String) (h : hasPrefix s pre = false) :
    trimPrefix s pre = s := by
  simp [trimPrefix, h]

/-! ## Zero values and conversions -/

/-- C2: the zero value synthesized for `bool` is the identifier `false`, which
`isZeroValue` does not recognise under `bool`, since it accepts an identifier
only when it is named `nil`; for the thirteen other primitive names the
synthesized zero value is recognised. -/
theorem isZeroValue_createZeroValue_bool :
    isZeroValue (createZeroValue "bool") "bool" = false ∧
    createZeroValue "bool" = .ident 0 "false" ∧
    (["string", "int", "int8", "int16", "int32", "int64", "uint", "uint8", "uint16",
      "uint32", "uint64", "float32", "float64"].all fun T =>
        isZeroValue (createZeroValue T) T) = true := by
  refine ⟨by decide, rfl, ?_⟩
  decide

/-- C3: `convertReturnValue e O N` is the zero value of `N` when `e` is a zero
value of `O`; otherwise the call with head identifier `N` and sole argument
`e` when a conversion from `O` to `N` is needed; otherwise `e`. The empty text
literal under `string` overridden to `W` becomes the empty composite `W{}`,
not the call `W("")`. -/
theorem convertReturnValue_spec (e : Expr) (O N : String) :
    (convertReturnValue e O N =
      if isZeroValue e O = true then createZeroValue N
      else if needsTypeConversion O N = true then .callExpr (.ident 0 N) [e]
      else e) ∧
    convertReturnValue (.basicLit .STRING "\"\"") "string" "W"
      = .compositeLit (some (.ident 0 "W")) [] ∧
    convertReturnValue (.basicLit .STRING "\"\"") "string" "W"
      ≠ .callExpr (.ident 0 "W") [.basicLit .STRING "\"\""] := by
  refine ⟨rfl, rfl, ?_⟩
  intro h
  have h1 : convertReturnValue (.basicLit .STRING "\"\"") "string" "W"
      = .compositeLit (some (.ident 0 "W")) [] := rfl
  rw [h1] at h
  cases h

/-- C4, as stated, fails: the identifier `nil` is accepted as a zero value of
`string`. -/
theorem isZeroValue_nil_string : isZeroValue (.ident 0 "nil") "string" = true := by
  decide

/-- C4, amended: the identifier `nil` is a zero value under every type name;
and under every type name other than `bool` the zero values are exactly the
identifier `nil` and the basic literals whose text is the empty text literal
for `string`, `0` for the integer names, `0` or `0.0` for the float names. -/
theorem isZeroValue_iff_of_ne_bool (e : Expr) (T : String) (hT : T ≠ "bool") :
    (∀ pos U, isZeroValue (.ident pos "nil") U = true) ∧
    (isZeroValue e T = true ↔
      (∃ pos, e = .ident pos "nil") ∨
      (∃ kind value, e = .basicLit kind value ∧
        ((T = "string" ∧ value = "\"\"") ∨
         (T ∈ ["int", "int8", "int16", "int32", "int64",
               "uint", "uint8", "uint16", "uint32", "uint64"] ∧ value = "0") ∨
         (T ∈ ["float32", "float64"] ∧ (value = "0" ∨ value = "0.0"))))) := by
  refine ⟨fun _ _ => by simp [isZeroValue], ?_⟩
  cases e with
  | ident pos name => simp [isZeroValue]
  | basicLit kind value =>
    simp only [isZeroValue]
    split_ifs with h1 h2 h3 h4
    · subst h1; simp
    · rcases h2 with h | h | h | h | h <;> subst h <;> simp
    · rcases h3 with h | h | h | h | h <;> subst h <;> simp
    · have hv : (value = "0" ∨ value = "0.0") ↔
          ∃ kind1 value1, (kind = kind1 ∧ value = value1) ∧ (value1 = "0" ∨ value1 = "0.0") :=
        ⟨fun h => ⟨kind, value, ⟨rfl, rfl⟩, h⟩, fun ⟨_, _, ⟨_, hv⟩, h⟩ => hv ▸ h⟩
      rcases h4 with h | h <;> subst h <;> simpa using hv
    · simp only [not_or] at h2 h3 h4
      simp [h1, h2, h3, h4]
  | _ => simp [isZeroValue]

/-- C4, amended, at the integer literal `0` under `int`. -/
theorem isZeroValue_iff_of_ne_bool_witness :
    isZeroValue (.basicLit .INT "0") "int" = true ↔
      (∃ pos, Expr.basicLit .INT "0" = .ident pos "nil") ∨
      (∃ kind value, Expr.basicLit .INT "0" = .basicLit kind value ∧
        (("int" = "string" ∧ value = "\"\"") ∨
         ("int" ∈ ["int", "int8", "int16", "int32", "int64",
               "uint", "uint8", "uint16", "uint32", "uint64"] ∧ value = "0") ∨
         ("int" ∈ ["float32", "float64"] ∧ (value = "0" ∨ value = "0.0")))) :=
  (isZeroValue_iff_of_ne_bool (.basicLit .INT "0") "int" (by decide)).2

/-- C5: `needsTypeConversion` is false on equal names; true when exactly one
name begins with the pointer marker; and otherwise true exactly when the names
left after stripping one leading marker from each differ. Hence
`needsTypeConversion A A` is false, `needsTypeConversion ("*" ++ T) T` is true
and `needsTypeConversion ("*" ++ T) ("*" ++ U)` tells whether `T` and `U`
differ. -/
theorem needsTypeConversion_spec (fromT toT A T U : String) :
    (fromT = toT → needsTypeConversion fromT toT = false) ∧
    (hasPrefix fromT "*" ≠ hasPrefix toT "*" → needsTypeConversion fromT toT = true) ∧
    (hasPrefix fromT "*" = hasPrefix toT "*" →
      (needsTypeConversion fromT toT = true ↔ trimPrefix fromT "*" ≠ trimPrefix toT "*")) ∧
    needsTypeConversion A A = false ∧
    needsTypeConversion ("*" ++ T) T = true ∧
    (needsTypeConversion ("*" ++ T) ("*" ++ U) = true ↔ T ≠ U) := by
  have hsame : ∀ a b : String, hasPrefix a "*" = hasPrefix b "*" →
      (needsTypeConversion a b = true ↔ trimPrefix a "*" ≠ trimPrefix b "*") := by
    intro a b h
    by_cases hab : a = b
    · subst hab
      simp [needsTypeConversion]
    · have hne : trimPrefix a "*" ≠ trimPrefix b "*" := by
        intro ht
        apply hab
        cases hb : hasPrefix b "*" with
        | false =>
          rw [hb] at h
          rw [trimPrefix_of_not_hasPrefix a "*" h, trimPrefix_of_not_hasPrefix b "*" hb] at ht
          exact ht
        | true =>
          rw [hb] at h
          obtain ⟨t, rfl⟩ := (hasPrefix_star_iff a).1 h
          obtain ⟨u, rfl⟩ := (hasPrefix_star_iff b).1 hb
          rw [trimPrefix_star_append, trimPrefix_star_append] at ht
          rw [ht]
      simp [needsTypeConversion, hab, h, hne]
  refine ⟨?_, ?_, hsame fromT toT, ?_, ?_, ?_⟩
  · intro h
    simp [needsTypeConversion, h]
  · intro h
    have hne : fromT ≠ toT := fun he => h (by rw [he])
    simp [needsTypeConversion, hne, h]
  · simp [needsTypeConversion]
  · have hne : "*" ++ T ≠ T := star_append_ne_self T
    by_cases hT : hasPrefix T "*" = true
    · have h := hsame ("*" ++ T) T (by rw [hasPrefix_star_append, hT])
      rw [h, trimPrefix_star_append]
      obtain ⟨t, rfl⟩ := (hasPrefix_star_iff T).1 hT
      rw [trimPrefix_star_append]
      exact star_append_ne_self t
    · simp [needsTypeConversion, hne, hasPrefix_star_append, hT]
  · have h := hsame ("*" ++ T) ("*" ++ U) (by rw [hasPrefix_star_append, hasPrefix_star_append])
    rw [h, trimPrefix_star_append, trimPrefix_star_append]

/-- C5 at concrete names: `*T` against `pkg.U` (one pointer), `*T` against `*U`
and `T` against `U` (same pointer shape). -/
theorem needsTypeConversion_spec_witness :
    needsTypeConversion "T" "T" = false ∧
    needsTypeConversion "*T" "pkg.U" = true ∧
    (needsTypeConversion "*T" "*U" = true ↔ trimPrefix "*T" "*" ≠ trimPrefix "*U" "*") :=
  ⟨(needsTypeConversion_spec "T" "T" "A" "T" "U").1 rfl,
   (needsTypeConversion_spec "*T" "pkg.U" "A" "T" "U").2.1 (by decide),
   (needsTypeConversion_spec "*T" "*U" "A" "T" "U").2.2.1 (by decide)⟩

/-! ## The return-statement walk -/

theorem applyExpr_createZeroValue (O N T : String) :
    applyExpr O N (createZeroValue T) = createZeroValue T := by
  unfold createZeroValue
  split_ifs <;> simp [applyExpr, applyOptExpr, applyExprs]

/-- Walking into the replacement built by `convertReturnValue` gives the entry
computed by `applyResults`. -/
theorem applyExpr_convertReturnValue (O N : String) (r : Expr) :
    applyExpr O N (convertReturnValue r O N) =
      if isZeroValue r O = true then createZeroValue N
      else if needsTypeConversion O N = true then
        .callExpr (.ident 0 N) [applyExpr O N r]
      else applyExpr O N r := by
  unfold convertReturnValue
  split_ifs
  · exact applyExpr_createZeroValue O N N
  · simp [applyExpr, applyExprs]
  · rfl

/-- The walk on the results of a return statement is the plain walk on the
results as replaced by the callback. -/
theorem applyResults_eq (O N : String) (rs : List Expr) :
    applyResults O N rs = applyExprs O N (rs.map fun r => convertReturnValue r O N) := by
  induction rs with
  | nil => simp [applyResults, applyExprs]
  | cons r rs ih =>
    simp only [applyResults, List.map_cons, applyExprs, ih, applyExpr_convertReturnValue]

/-! ## The declaration patcher -/

/-- A function whose result list has one entry gets that entry through
`castDecl` and its body through `patchFunctionBody`, which reads the original
type from the entry as `castDecl` left it. -/
theorem patchTypeDef_getter (N : String) (sig : List String) (n : FuncDecl) (r : Field)
    (hres : n.type.results = some [r]) :
    patchTypeDef (some N) ⟨none, .signature sig, some (.funcDecl n)⟩ =
      some ⟨none, .signature sig, some (.funcDecl
        { n with
          type := { n.type with results := some [(castDecl N r).1] }
          body := n.body.map fun b => applyStmts (originalTypeOf [(castDecl N r).1]) N b })⟩ := by
  simp only [patchTypeDef, hres, List.length_singleton, ne_eq, not_true_eq_false, if_false,
    patchFunctionBody]
  cases hb : n.body <;> simp [hb]

/-- A function with a result list of any length other than one is left as it
is. -/
theorem patchTypeDef_result_count (N : String) (sig : List String) (n : FuncDecl)
    (list : List Field) (hres : n.type.results = some list) (hlen : list.length ≠ 1) :
    patchTypeDef (some N) ⟨none, .signature sig, some (.funcDecl n)⟩ =
      some ⟨none, .signature sig, some (.funcDecl n)⟩ := by
  simp [patchTypeDef, hres, hlen]


/-- Once `castDecl` has succeeded, the type `patchFunctionBody` reads back from
the signature is the override name, not the type declared before. -/
theorem originalTypeOf_castDecl (N : String) (r : Field) (h : (castDecl N r).2 = true) :
    originalTypeOf [(castDecl N r).1] = N := by
  obtain ⟨names, t⟩ := r
  cases t <;> simp_all [castDecl, originalTypeOf]

/-- C1: on `GetField() string { return x.Field }` overridden to `W` the
signature becomes `W` and the body stays `return x.Field`, whereas
`convertReturnValue` with the type declared before, `string`, yields
`W(x.Field)`: the body is converted against the already renamed result type. -/
theorem patchTypeDef_getField_string :
    patchTypeDef (some "W")
        (getterSite ["string"] (getField (some [.mk [] (.ident 21 "string")])
          (some [.returnStmt [xField]])))
      = some (getterSite ["string"] (getField (some [.mk [] (.ident 21 "W")])
          (some [.returnStmt [xField]]))) ∧
    convertReturnValue xField "string" "W" = .callExpr (.ident 0 "W") [xField] ∧
    xField ≠ .callExpr (.ident 0 "W") [xField] := by
  refine ⟨rfl, rfl, ?_⟩
  intro h
  cases h

/-- C6: for a field declaration with an override `N`, a declared identifier is
renamed to `N`, a declared array type or pointer type is replaced by the bare
identifier `N`, and a declared type of any other shape leaves the declaration
as it is. -/
theorem patchTypeDef_field (N : String) (names : List String) (objType : TypesType)
    (parent : Option Node) :
    (∀ pos O, patchTypeDef (some N) ⟨some (.field (.mk names (.ident pos O))), objType, parent⟩
      = some ⟨some (.field (.mk names (.ident pos N))), objType, parent⟩) ∧
    (∀ len elt,
      patchTypeDef (some N) ⟨some (.field (.mk names (.arrayType len elt))), objType, parent⟩
      = some ⟨some (.field (.mk names (.ident 0 N))), objType, parent⟩) ∧
    (∀ x, patchTypeDef (some N) ⟨some (.field (.mk names (.starExpr x))), objType, parent⟩
      = some ⟨some (.field (.mk names (.ident 0 N))), objType, parent⟩) ∧
    (∀ t, (∀ pos O, t ≠ .ident pos O) → (∀ len elt, t ≠ .arrayType len elt) →
      (∀ x, t ≠ .starExpr x) →
      patchTypeDef (some N) ⟨some (.field (.mk names t)), objType, parent⟩
      = some ⟨some (.field (.mk names t)), objType, parent⟩) := by
  refine ⟨fun _ _ => rfl, fun _ _ => rfl, fun _ => rfl, ?_⟩
  intro t h1 h2 h3
  cases t <;> first
    | exact absurd rfl (h1 _ _)
    | exact absurd rfl (h2 _ _)
    | exact absurd rfl (h3 _)
    | rfl

/-- C6 at the field `Field pkg.T`, whose declared type is a selector: the
declaration is left as it is. -/
theorem patchTypeDef_field_witness :
    patchTypeDef (some "W") ⟨some (.field (.mk ["Field"] pkgT)), .other, none⟩
      = some ⟨some (.field (.mk ["Field"] pkgT)), .other, none⟩ :=
  (patchTypeDef_field "W" ["Field"] .other none).2.2.2 pkgT
    (fun _ _ h => by cases h) (fun _ _ h => by cases h) (fun _ h => by cases h)

/-- C7, as stated, fails: an accessor whose single result is declared with the
map type `map[string]int` keeps that declared type. -/
theorem patchTypeDef_getter_result_not_always :
    ¬ ∀ (N : String) (sig : List String) (n : FuncDecl) (r : Field),
      n.type.results = some [r] →
      ∃ n1 names pos,
        patchTypeDef (some N) ⟨none, .signature sig, some (.funcDecl n)⟩
          = some ⟨none, .signature sig, some (.funcDecl n1)⟩ ∧
        n1.type.results = some [.mk names (.ident pos N)] := by
  intro h
  obtain ⟨n1, names, pos, h1, h2⟩ :=
    h "W" ["map[string]int"] (getField (some [.mk [] mapStringInt]) none) (.mk [] mapStringInt) rfl
  rw [patchTypeDef_getter "W" _ _ (.mk [] mapStringInt) rfl] at h1
  simp only [Option.some.injEq, DefSite.mk.injEq, Node.funcDecl.injEq, true_and] at h1
  subst h1
  simp [castDecl, mapStringInt] at h2

/-- C7, amended: for an accessor whose single result is declared as an
identifier, an array type or a pointer type, after `patchTypeDef` the declared
type of that result is an identifier named by the override. -/
theorem patchTypeDef_getter_result (N : String) (sig : List String) (n : FuncDecl)
    (names : List String) (t : Expr) (hres : n.type.results = some [.mk names t])
    (hshape : (∃ pos O, t = .ident pos O) ∨ (∃ len elt, t = .arrayType len elt) ∨
      (∃ x, t = .starExpr x)) :
    ∃ n1 pos,
      patchTypeDef (some N) ⟨none, .signature sig, some (.funcDecl n)⟩
        = some ⟨none, .signature sig, some (.funcDecl n1)⟩ ∧
      n1.type.results = some [.mk names (.ident pos N)] := by
  rw [patchTypeDef_getter N sig n _ hres]
  rcases hshape with ⟨pos, O, rfl⟩ | ⟨len, elt, rfl⟩ | ⟨x, rfl⟩
  · exact ⟨_, pos, rfl, rfl⟩
  · exact ⟨_, 0, rfl, rfl⟩
  · exact ⟨_, 0, rfl, rfl⟩

/-- C7, amended, at `GetField() *Msg` overridden to `pkg.W`. -/
theorem patchTypeDef_getter_result_witness :
    ∃ n1 pos,
      patchTypeDef (some "pkg.W") ⟨none, .signature ["*Msg"], some (.funcDecl
          (getField (some [.mk [] (.starExpr (.ident 22 "Msg"))]) (some [.returnStmt [xField]])))⟩
        = some ⟨none, .signature ["*Msg"], some (.funcDecl n1)⟩ ∧
      n1.type.results = some [.mk [] (.ident pos "pkg.W")] :=
  patchTypeDef_getter_result "pkg.W" ["*Msg"]
    (getField (some [.mk [] (.starExpr (.ident 22 "Msg"))]) (some [.returnStmt [xField]]))
    [] (.starExpr (.ident 22 "Msg")) rfl (Or.inr (Or.inr ⟨_, rfl⟩))

/-- C8: on a function declared without a result list `patchTypeDef` does not
complete: reading the length of the absent list is a run-time panic. -/
theorem patchTypeDef_no_result_list (N : String) (sig : List String)
    (recv : Option (List Field)) (name : String) (params : List Field)
    (body : Option (List Stmt)) :
    patchTypeDef (some N)
      ⟨none, .signature sig, some (.funcDecl ⟨recv, name, ⟨params, none⟩, body⟩)⟩ = none := by
  rfl

/-- C9: on `GetField() pkg.T { return x.Field }` overridden to `W` the
signature keeps the unsupported type `pkg.T` but the body is rewritten to
`return W(x.Field)`. -/
theorem patchTypeDef_getField_selector :
    patchTypeDef (some "W")
        (getterSite ["pkg.T"] (getField (some [.mk [] pkgT]) (some [.returnStmt [xField]])))
      = some (getterSite ["pkg.T"] (getField (some [.mk [] pkgT])
          (some [.returnStmt [.callExpr (.ident 0 "W") [xField]]]))) ∧
    Stmt.returnStmt [.callExpr (.ident 0 "W") [xField]] ≠ .returnStmt [xField] := by
  refine ⟨rfl, ?_⟩
  intro h
  cases h

/-! ## Pointers into the tree -/

theorem getPath_append (n : Node) (p q : List Slot) :
    getPath n (p ++ q) = (getPath n p).bind fun m => getPath m q := by
  induction p generalizing n with
  | nil => simp [getPath]
  | cons s p ih =>
    simp only [List.cons_append, getPath]
    cases child n s with
    | none => rfl
    | some c => simpa using ih c

/-- Dereferencing a child pointer: dereference the parent, then take the slot. -/
theorem getAt_cons (root : Node) (s : Slot) (p : Ptr) :
    getAt root (s :: p) = (getAt root p).bind fun m => child m s := by
  simp only [getAt, List.reverse_cons, getPath_append]
  cases getPath root p.reverse with
  | none => rfl
  | some m =>
    simp only [Option.some_bind, getPath]
    cases child m s <;> rfl

theorem setPath_append_singleton (n m c new : Node) (p : List Slot) (s : Slot)
    (hm : getPath n p = some m) (hc : child m s = some c) :
    setPath n (p ++ [s]) new = (setChild m s new).bind fun m1 => setPath n p m1 := by
  induction p generalizing n with
  | nil =>
    simp only [getPath, Option.some.injEq] at hm
    subst hm
    simp only [List.nil_append, setPath, hc, Option.some_bind]
    cases setChild n s new <;> rfl
  | cons t p ih =>
    simp only [getPath] at hm
    cases hct : child n t with
    | none => simp [hct] at hm
    | some c0 =>
      rw [hct] at hm
      simp only [Option.some_bind] at hm
      have hstep : setPath n (t :: (p ++ [s])) new =
          (setPath c0 (p ++ [s]) new).bind fun c1 => setChild n t c1 := by
        simp only [setPath, hct, Option.some_bind]
      have hrhs : ∀ m1, setPath n (t :: p) m1 =
          (setPath c0 p m1).bind fun c1 => setChild n t c1 := by
        intro m1
        simp only [setPath, hct, Option.some_bind]
      rw [List.cons_append, hstep, ih c0 hm]
      cases setChild m s new with
      | none => rfl
      | some m1 => simp only [Option.some_bind, hrhs]

/-- Storing through a child pointer: store the updated parent. -/
theorem setAt_cons (root m c new : Node) (s : Slot) (p : Ptr)
    (hm : getAt root p = some m) (hc : child m s = some c) :
    setAt root (s :: p) new = (setChild m s new).bind fun m1 => setAt root p m1 := by
  simp only [setAt, List.reverse_cons]
  exact setPath_append_singleton root m c new p.reverse s hm hc

theorem setEntry_isSome {α : Type} (l : List α) (i : Nat) (a b : α) (h : l[i]? = some a) :
    (setEntry l i b).isSome = true := by
  have hlt : i < l.length := by
    by_contra hlt
    rw [List.getElem?_eq_none (Nat.le_of_not_lt hlt)] at h
    cases h
  simp [setEntry, hlt]

theorem setChildExpr_isSome (e : Expr) (s : Slot) (c c1 : Node)
    (hc : childExpr e s = some c) (hs : sameSort c c1 = true) :
    (setChildExpr e s c1).isSome = true := by
  cases e <;> cases s <;> simp only [childExpr, reduceCtorEq] at hc <;>
    cases c <;> cases c1 <;> simp only [sameSort, Bool.false_eq_true] at hs <;>
    simp_all [setChildExpr, Option.map_eq_some', Option.bind_eq_some, Option.isSome_iff_exists,
      setEntry, List.getElem?_eq_some] <;>
    first
    | (obtain ⟨h, _⟩ := hc; exact h)
    | (obtain ⟨a, rfl, h, _⟩ := hc; exact ⟨_, _, rfl, h, rfl⟩)

theorem setChildStmt_isSome (t : Stmt) (s : Slot) (c c1 : Node)
    (hc : childStmt t s = some c) (hs : sameSort c c1 = true) :
    (setChildStmt t s c1).isSome = true := by
  cases t <;> cases s <;> simp only [childStmt, reduceCtorEq] at hc <;>
    cases c <;> cases c1 <;> simp only [sameSort, Bool.false_eq_true] at hs <;>
    simp_all [setChildStmt, Option.map_eq_some', Option.bind_eq_some, Option.isSome_iff_exists,
      setEntry, List.getElem?_eq_some] <;>
    (obtain ⟨h, _⟩ := hc; exact h)

theorem setChildFuncDecl_isSome (n : FuncDecl) (s : Slot) (c c1 : Node)
    (hc : childFuncDecl n s = some c) (hs : sameSort c c1 = true) :
    (setChildFuncDecl n s c1).isSome = true := by
  cases s <;> simp only [childFuncDecl, reduceCtorEq] at hc <;>
    cases c <;> cases c1 <;> simp only [sameSort, Bool.false_eq_true] at hs <;>
    simp_all [setChildFuncDecl, Option.map_eq_some', Option.bind_eq_some,
      Option.isSome_iff_exists, setEntry, List.getElem?_eq_some] <;>
    first
    | (obtain ⟨h, _⟩ := hc; exact h)
    | (obtain ⟨a, ha, h, _⟩ := hc; exact ⟨_, _, ha, h, rfl⟩)

/-- A filled slot accepts any node of the sort of its present child, and the
parent keeps its sort. -/
theorem setChild_of_child (n c c1 : Node) (s : Slot) (hc : child n s = some c)
    (hs : sameSort c c1 = true) : ∃ n1, setChild n s c1 = some n1 ∧ sameSort n n1 = true := by
  cases n with
  | expr e =>
    obtain ⟨e1, he1⟩ := Option.isSome_iff_exists.1 (setChildExpr_isSome e s c c1 hc hs)
    exact ⟨.expr e1, by simp [setChild, he1], rfl⟩
  | stmt t =>
    obtain ⟨t1, ht1⟩ := Option.isSome_iff_exists.1 (setChildStmt_isSome t s c c1 hc hs)
    exact ⟨.stmt t1, by simp [setChild, ht1], rfl⟩
  | field f =>
    obtain ⟨names, type⟩ := f
    cases s <;> simp only [child, reduceCtorEq] at hc
    cases hc
    cases c1 <;> simp only [sameSort, Bool.false_eq_true] at hs
    exact ⟨_, rfl, rfl⟩
  | funcDecl d =>
    obtain ⟨d1, hd1⟩ := Option.isSome_iff_exists.1 (setChildFuncDecl_isSome d s c c1 hc hs)
    exact ⟨.funcDecl d1, by simp [setChild, hd1], rfl⟩
  | other k => simp [child] at hc

theorem sameSort_trans (a b c : Node) (hab : sameSort a b = true) (hbc : sameSort b c = true) :
    sameSort a c = true := by
  cases a <;> cases b <;> cases c <;> simp_all [sameSort]

/-- Replacing the node at the end of a valid path by a node of the same sort
succeeds and keeps the sort of the tree. -/
theorem setPath_of_getPath (n old new : Node) (path : List Slot)
    (hg : getPath n path = some old) (hs : sameSort old new = true) :
    ∃ n1, setPath n path new = some n1 ∧ sameSort n n1 = true := by
  induction path generalizing n with
  | nil =>
    simp only [getPath, Option.some.injEq] at hg
    subst hg
    exact ⟨new, rfl, hs⟩
  | cons s rest ih =>
    simp only [getPath] at hg
    cases hc : child n s with
    | none => simp [hc] at hg
    | some c =>
      rw [hc] at hg
      obtain ⟨c1, hc1, hcs⟩ := ih c hg
      obtain ⟨n1, hn1, hns⟩ := setChild_of_child n c c1 s hc hcs
      exact ⟨n1, by simp [setPath, hc, hc1, hn1], hns⟩

/-- Storing an expression where an expression stands succeeds. -/
theorem setAt_expr_of_getAt (root : Node) (p : Ptr) (e e1 : Expr)
    (hg : getAt root p = some (.expr e)) : ∃ root1, setAt root p (.expr e1) = some root1 := by
  obtain ⟨n1, hn1, _⟩ := setPath_of_getPath root (.expr e) (.expr e1) p.reverse hg rfl
  exact ⟨n1, hn1⟩

theorem setEntry_eq_some {α : Type} (l l1 : List α) (i : Nat) (a : α)
    (h : setEntry l i a = some l1) : i < l.length ∧ l1 = l.set i a := by
  unfold setEntry at h
  split_ifs at h with hlt
  exact ⟨hlt, by cases h; rfl⟩

theorem childExpr_setChildExpr (e e1 : Expr) (s : Slot) (c : Node)
    (h : setChildExpr e s c = some e1) : childExpr e1 s = some c := by
  cases e <;> cases s <;> simp only [setChildExpr, reduceCtorEq] at h <;>
    cases c <;> simp only [reduceCtorEq, Option.map_eq_some', Option.bind_eq_some] at h <;>
    first
    | (cases h; rfl)
    | (obtain ⟨l, hl, rfl⟩ := h
       obtain ⟨hlt, rfl⟩ := setEntry_eq_some _ _ _ _ hl
       simp [childExpr, hlt])
    | (obtain ⟨_, _, rfl⟩ := h; rfl)
    | (obtain ⟨r, rfl, l, hl, rfl⟩ := h
       obtain ⟨hlt, rfl⟩ := setEntry_eq_some _ _ _ _ hl
       simp [childExpr, hlt])

theorem childStmt_setChildStmt (t t1 : Stmt) (s : Slot) (c : Node)
    (h : setChildStmt t s c = some t1) : childStmt t1 s = some c := by
  cases t <;> cases s <;> simp only [setChildStmt, reduceCtorEq] at h <;>
    cases c <;> simp only [reduceCtorEq, Option.map_eq_some', Option.bind_eq_some] at h <;>
    first
    | (cases h; rfl)
    | (obtain ⟨l, hl, rfl⟩ := h
       obtain ⟨hlt, rfl⟩ := setEntry_eq_some _ _ _ _ hl
       simp [childStmt, hlt])
    | (obtain ⟨_, _, rfl⟩ := h; rfl)

theorem childFuncDecl_setChildFuncDecl (n n1 : FuncDecl) (s : Slot) (c : Node)
    (h : setChildFuncDecl n s c = some n1) : childFuncDecl n1 s = some c := by
  cases s <;> simp only [setChildFuncDecl, reduceCtorEq] at h <;>
    cases c <;> simp only [reduceCtorEq, Option.map_eq_some', Option.bind_eq_some] at h <;>
    first
    | (obtain ⟨l, hl, rfl⟩ := h
       obtain ⟨hlt, rfl⟩ := setEntry_eq_some _ _ _ _ hl
       simp [childFuncDecl, hlt])
    | (obtain ⟨r, _, l, hl, rfl⟩ := h
       obtain ⟨hlt, rfl⟩ := setEntry_eq_some _ _ _ _ hl
       simp [childFuncDecl, hlt])

/-- The slot just stored into holds the stored child. -/
theorem child_setChild (n n1 c : Node) (s : Slot) (h : setChild n s c = some n1) :
    child n1 s = some c := by
  cases n with
  | expr e =>
    simp only [setChild, Option.map_eq_some'] at h
    obtain ⟨e1, he1, rfl⟩ := h
    exact childExpr_setChildExpr e e1 s c he1
  | stmt t =>
    simp only [setChild, Option.map_eq_some'] at h
    obtain ⟨t1, ht1, rfl⟩ := h
    exact childStmt_setChildStmt t t1 s c ht1
  | field f =>
    obtain ⟨names, type⟩ := f
    cases s <;> simp only [setChild, reduceCtorEq] at h
    cases c <;> simp only [reduceCtorEq] at h
    cases h
    rfl
  | funcDecl d =>
    simp only [setChild, Option.map_eq_some'] at h
    obtain ⟨d1, hd1, rfl⟩ := h
    exact childFuncDecl_setChildFuncDecl d d1 s c hd1
  | other k => simp [setChild] at h

/-- Reading back what was stored. -/
theorem getPath_setPath (n new n1 : Node) (path : List Slot)
    (hset : setPath n path new = some n1) : getPath n1 path = some new := by
  induction path generalizing n n1 with
  | nil =>
    simp only [setPath, Option.some.injEq] at hset
    subst hset
    rfl
  | cons s rest ih =>
    simp only [setPath, Option.bind_eq_some] at hset
    obtain ⟨c, _, c1, hc1, hn1⟩ := hset
    simp only [getPath, child_setChild n n1 c1 s hn1, Option.some_bind]
    exact ih c c1 hc1

theorem childExpr_setChildExpr_ne (e e1 : Expr) (s s1 : Slot) (c : Node)
    (h : setChildExpr e s c = some e1) (hne : s1 ≠ s) : childExpr e1 s1 = childExpr e s1 := by
  cases e <;> cases s <;> simp only [setChildExpr, reduceCtorEq] at h <;>
    cases c <;> simp only [reduceCtorEq, Option.map_eq_some', Option.bind_eq_some] at h <;>
    first
    | (cases h; cases s1 <;> first | rfl | exact absurd rfl hne)
    | (obtain ⟨l, hl, rfl⟩ := h
       obtain ⟨hlt, rfl⟩ := setEntry_eq_some _ _ _ _ hl
       cases s1 <;> first
         | rfl
         | (simp only [childExpr]
            rw [List.getElem?_set_ne]
            intro hij
            exact hne (by rw [hij])))
    | (obtain ⟨_, rfl, rfl⟩ := h; cases s1 <;> first | rfl | exact absurd rfl hne)
    | (obtain ⟨r, rfl, l, hl, rfl⟩ := h
       obtain ⟨hlt, rfl⟩ := setEntry_eq_some _ _ _ _ hl
       cases s1 <;> first
         | rfl
         | (simp only [childExpr, Option.some_bind]
            rw [List.getElem?_set_ne]
            intro hij
            exact hne (by rw [hij])))

theorem childStmt_setChildStmt_ne (t t1 : Stmt) (s s1 : Slot) (c : Node)
    (h : setChildStmt t s c = some t1) (hne : s1 ≠ s) : childStmt t1 s1 = childStmt t s1 := by
  cases t <;> cases s <;> simp only [setChildStmt, reduceCtorEq] at h <;>
    cases c <;> simp only [reduceCtorEq, Option.map_eq_some', Option.bind_eq_some] at h <;>
    first
    | (cases h; cases s1 <;> first | rfl | exact absurd rfl hne)
    | (obtain ⟨l, hl, rfl⟩ := h
       obtain ⟨hlt, rfl⟩ := setEntry_eq_some _ _ _ _ hl
       cases s1 <;> first
         | rfl
         | (simp only [childStmt]
            rw [List.getElem?_set_ne]
            intro hij
            exact hne (by rw [hij])))
    | (obtain ⟨_, rfl, rfl⟩ := h; cases s1 <;> first | rfl | exact absurd rfl hne)

theorem childFuncDecl_setChildFuncDecl_ne (n n1 : FuncDecl) (s s1 : Slot) (c : Node)
    (h : setChildFuncDecl n s c = some n1) (hne : s1 ≠ s) :
    childFuncDecl n1 s1 = childFuncDecl n s1 := by
  cases s <;> simp only [setChildFuncDecl, reduceCtorEq] at h <;>
    cases c <;> simp only [reduceCtorEq, Option.map_eq_some', Option.bind_eq_some] at h <;>
    first
    | (obtain ⟨l, hl, rfl⟩ := h
       obtain ⟨hlt, rfl⟩ := setEntry_eq_some _ _ _ _ hl
       cases s1 <;> first
         | rfl
         | (simp only [childFuncDecl]
            rw [List.getElem?_set_ne]
            intro hij
            exact hne (by rw [hij])))
    | (obtain ⟨r, hr, l, hl, rfl⟩ := h
       obtain ⟨hlt, rfl⟩ := setEntry_eq_some _ _ _ _ hl
       cases s1 <;> first
         | (simp only [childFuncDecl, hr, Option.some_bind]
            rw [List.getElem?_set_ne]
            intro hij
            exact hne (by rw [hij]))
         | simp only [childFuncDecl, hr])

/-- The other slots of a node are not touched by a store into one slot. -/
theorem child_setChild_ne (n n1 c : Node) (s s1 : Slot) (h : setChild n s c = some n1)
    (hne : s1 ≠ s) : child n1 s1 = child n s1 := by
  cases n with
  | expr e =>
    simp only [setChild, Option.map_eq_some'] at h
    obtain ⟨e1, he1, rfl⟩ := h
    exact childExpr_setChildExpr_ne e e1 s s1 c he1 hne
  | stmt t =>
    simp only [setChild, Option.map_eq_some'] at h
    obtain ⟨t1, ht1, rfl⟩ := h
    exact childStmt_setChildStmt_ne t t1 s s1 c ht1 hne
  | field f =>
    obtain ⟨names, type⟩ := f
    cases s <;> simp only [setChild, reduceCtorEq] at h
    cases c <;> simp only [reduceCtorEq] at h
    cases h
    cases s1 <;> first | rfl | exact absurd rfl hne
  | funcDecl d =>
    simp only [setChild, Option.map_eq_some'] at h
    obtain ⟨d1, hd1, rfl⟩ := h
    exact childFuncDecl_setChildFuncDecl_ne d d1 s s1 c hd1 hne
  | other k => simp [setChild] at h

/-- A store does not change what is read along a path that leaves the path of
the store: with a common prefix `r`, then different slots `s` and `s1`. -/
theorem getPath_setPath_diverge (n new n1 : Node) (r t t1 : List Slot) (s s1 : Slot)
    (hne : s1 ≠ s) (hset : setPath n (r ++ s :: t) new = some n1) :
    getPath n1 (r ++ s1 :: t1) = getPath n (r ++ s1 :: t1) := by
  induction r generalizing n n1 with
  | nil =>
    simp only [List.nil_append, setPath, Option.bind_eq_some] at hset
    obtain ⟨c, _, c1, _, hn1⟩ := hset
    simp only [List.nil_append, getPath, child_setChild_ne n n1 c1 s s1 hn1 hne]
  | cons u r ih =>
    simp only [List.cons_append, setPath, Option.bind_eq_some] at hset
    obtain ⟨c, hc, c1, hc1, hn1⟩ := hset
    simp only [List.cons_append, getPath, child_setChild n n1 c1 u hn1, hc, Option.some_bind]
    exact ih c c1 hc1

/-! ## The usage-site patcher -/

/-- The assignment `slot = cast(asType, slot)` on a child slot holding an
expression stores the parent with that child wrapped. -/
theorem castSlot_child (root m : Node) (p : Ptr) (s : Slot) (e : Expr) (asType : String)
    (hm : getAt root p = some m) (hc : child m s = some (.expr e)) :
    ∃ m1, setChild m s (.expr (cast asType e)) = some m1 ∧
      setAt root p m1 = some (castSlot root (s :: p) asType) := by
  obtain ⟨m1, hm1, hs⟩ := setChild_of_child m (.expr e) (.expr (cast asType e)) s hc rfl
  obtain ⟨root1, hroot1, _⟩ := setPath_of_getPath root m m1 p.reverse hm hs
  refine ⟨m1, hm1, ?_⟩
  have hget : getAt root (s :: p) = some (.expr e) := by
    rw [getAt_cons, hm]
    exact hc
  have hset : setAt root (s :: p) (.expr (cast asType e)) = some root1 := by
    rw [setAt_cons root m (.expr e) _ s p hm hc, hm1]
    exact hroot1
  simp only [castSlot, hget, hset, Option.getD_some]
  exact hroot1

/-- C10: when the reference to an overridden symbol, outside the symbol's own
accessor, is the key of a key/value pair, the patched tree is the tree with
that pair replaced by the same key paired with `cast desiredType value`; when
it is the value, by the same key paired with `cast originalType value`. -/
theorem patchTypeUsage_keyValue (N : String) (objType : TypesType) (root : Node) (kv : Ptr)
    (key value : Expr) (originalType desiredType : String)
    (hkv : getAt root kv = some (.expr (.keyValueExpr key value)))
    (hpair : typePair objType N = some (originalType, desiredType)) :
    (∀ pos name, key = .ident pos name → insideGetter root name (.key :: kv) = false →
      setAt root kv (.expr (.keyValueExpr key (cast desiredType value)))
        = some (patchTypeUsage (some N) objType root (.key :: kv))) ∧
    (∀ pos name, value = .ident pos name → insideGetter root name (.value :: kv) = false →
      setAt root kv (.expr (.keyValueExpr key (cast originalType value)))
        = some (patchTypeUsage (some N) objType root (.value :: kv))) := by
  have hval : child (.expr (.keyValueExpr key value)) .value = some (.expr value) := rfl
  constructor
  · intro pos name hkey hin
    have hid : getAt root (.key :: kv) = some (.expr (.ident pos name)) := by
      rw [getAt_cons, hkv, ← hkey]
      rfl
    obtain ⟨m1, hm1, hset⟩ := castSlot_child root _ kv .value value desiredType hkv hval
    cases hm1
    simp only [patchTypeUsage, hid, hin, hpair, findParentNode, hkv]
    simpa using hset
  · intro pos name hvalue hin
    have hid : getAt root (.value :: kv) = some (.expr (.ident pos name)) := by
      rw [getAt_cons, hkv, ← hvalue]
      rfl
    obtain ⟨m1, hm1, hset⟩ := castSlot_child root _ kv .value value originalType hkv hval
    cases hm1
    simp only [patchTypeUsage, hid, hin, hpair, findParentNode, hkv]
    simpa using hset

/-- C10 at `Msg{Field: value}` with `Field` of type `string` overridden to `W`:
the literal becomes `Msg{Field: W(value)}`. -/
theorem patchTypeUsage_keyValue_witness :
    patchTypeUsage (some "W") (.basic "string") msgLit [.key, .elts 0]
      = .expr (.compositeLit (some (.ident 1 "Msg"))
          [.keyValueExpr (.ident 5 "Field") (.callExpr (.ident 0 "W") [.ident 12 "value"])]) := by
  have h := (patchTypeUsage_keyValue "W" (.basic "string") msgLit [.elts 0]
    (.ident 5 "Field") (.ident 12 "value") "string" "W" rfl rfl).1 5 "Field" rfl rfl
  have h1 : setAt msgLit [.elts 0]
      (.expr (.keyValueExpr (.ident 5 "Field") (cast "W" (.ident 12 "value"))))
      = some (.expr (.compositeLit (some (.ident 1 "Msg"))
          [.keyValueExpr (.ident 5 "Field") (.callExpr (.ident 0 "W") [.ident 12 "value"])])) := rfl
  rw [h1] at h
  exact (Option.some.inj h).symm

/-! ## Override names and the two conversion builders -/

theorem paren_ne_self (T : String) : "(" ++ T ++ ")" ≠ T := by
  intro h
  have h1 := congrArg (fun s => s.data.length) h
  simp [String.data_append] at h1
  omega

/-- Names of equal pointer shape that agree once a leading marker is stripped
are equal. -/
theorem eq_of_trimPrefix_star_eq (a b : String) (hp : hasPrefix a "*" = hasPrefix b "*")
    (ht : trimPrefix a "*" = trimPrefix b "*") : a = b := by
  cases hb : hasPrefix b "*" with
  | false =>
    rw [hb] at hp
    rw [trimPrefix_of_not_hasPrefix a "*" hp, trimPrefix_of_not_hasPrefix b "*" hb] at ht
    exact ht
  | true =>
    rw [hb] at hp
    obtain ⟨t, rfl⟩ := (hasPrefix_star_iff a).1 hp
    obtain ⟨u, rfl⟩ := (hasPrefix_star_iff b).1 hb
    rw [trimPrefix_star_append, trimPrefix_star_append] at ht
    rw [ht]

/-- C12: for a type name accepted by `isTypeValid`, `createZeroValue` yields
the identifier `nil` when the name begins with the pointer marker and
otherwise the empty composite literal of that name; it is never a basic
literal nor the identifier `false`, since `isTypeValid` rejects every bare
scalar name. -/
theorem createZeroValue_of_isTypeValid (T : String) (hT : isTypeValid T = true) :
    (createZeroValue T =
      if hasPrefix T "*" = true then .ident 0 "nil"
      else .compositeLit (some (.ident 0 T)) []) ∧
    (["string", "int", "int8", "int16", "int32", "int64", "uint", "uint8", "uint16",
      "uint32", "uint64", "float32", "float64", "bool"].all fun U => !isTypeValid U) = true := by
  refine ⟨?_, by decide⟩
  have hne : ∀ U, isTypeValid U = false → T ≠ U := by
    intro U hU h
    rw [h, hU] at hT
    cases hT
  simp only [createZeroValue, hne "string" (by decide), hne "int" (by decide),
    hne "int8" (by decide), hne "int16" (by decide), hne "int32" (by decide),
    hne "int64" (by decide), hne "uint" (by decide), hne "uint8" (by decide),
    hne "uint16" (by decide), hne "uint32" (by decide), hne "uint64" (by decide),
    hne "float32" (by decide), hne "float64" (by decide), hne "bool" (by decide),
    or_self, if_false]

/-- C12 at the override names `*pkg.W` and `pkg.W`. -/
theorem createZeroValue_of_isTypeValid_witness :
    createZeroValue "*pkg.W" = .ident 0 "nil" ∧
    createZeroValue "pkg.W" = .compositeLit (some (.ident 0 "pkg.W")) [] :=
  ⟨(createZeroValue_of_isTypeValid "*pkg.W" (by decide)).1,
   (createZeroValue_of_isTypeValid "pkg.W" (by decide)).1⟩

/-- C13: `cast T e` is a call whose only argument is `e`; its head is the
identifier `T` when `T` does not begin with the pointer marker and the
identifier `(T)` when it does. -/
theorem cast_spec (T : String) (e : Expr) :
    cast T e = .callExpr (.ident 0 (if hasPrefix T "*" = true then "(" ++ T ++ ")" else T)) [e] ∧
    cast "W" e = .callExpr (.ident 0 "W") [e] ∧
    cast "*W" e = .callExpr (.ident 0 "(*W)") [e] := by
  refine ⟨?_, rfl, rfl⟩
  unfold cast
  split_ifs <;> rfl

/-- C19: `needsTypeConversion` is true exactly on different names; it is
symmetric, and it reports a conversion between `**T` and `*T` and between
`[]T` and `T`. -/
theorem needsTypeConversion_iff_ne (fromT toT : String) :
    (needsTypeConversion fromT toT = true ↔ fromT ≠ toT) ∧
    needsTypeConversion fromT toT = needsTypeConversion toT fromT ∧
    needsTypeConversion "**T" "*T" = true ∧
    needsTypeConversion "[]T" "T" = true := by
  have hiff : ∀ a b : String, needsTypeConversion a b = true ↔ a ≠ b := by
    intro a b
    by_cases hab : a = b
    · simp [needsTypeConversion, hab]
    · by_cases hp : hasPrefix a "*" = hasPrefix b "*"
      · have hne : trimPrefix a "*" ≠ trimPrefix b "*" :=
          fun ht => hab (eq_of_trimPrefix_star_eq a b hp ht)
        simp [needsTypeConversion, hab, hp, hne]
      · simp [needsTypeConversion, hab, hp]
  refine ⟨hiff fromT toT, ?_, by decide, by decide⟩
  have h1 := hiff fromT toT
  have h2 := hiff toT fromT
  cases h : needsTypeConversion fromT toT with
  | true =>
    have hne : toT ≠ fromT := fun he => (h1.1 h) he.symm
    exact (h2.2 hne).symm
  | false =>
    cases h3 : needsTypeConversion toT fromT with
    | false => rfl
    | true =>
      have hne : fromT ≠ toT := fun he => (h2.1 h3) he.symm
      rw [h1.2 hne] at h
      cases h

/-- C20: for an expression that is not a zero value of `O` and a name `N` that
needs a conversion from `O`, `convertReturnValue` builds the call `N(e)`; it
is `cast N e` when `N` does not begin with the pointer marker, and differs
from it when `N` does, where `cast` uses the head `(N)`. -/
theorem convertReturnValue_vs_cast (e : Expr) (O N : String)
    (hz : isZeroValue e O = false) (hn : needsTypeConversion O N = true) :
    convertReturnValue e O N = .callExpr (.ident 0 N) [e] ∧
    (hasPrefix N "*" = false → convertReturnValue e O N = cast N e) ∧
    (hasPrefix N "*" = true →
      cast N e = .callExpr (.ident 0 ("(" ++ N ++ ")")) [e] ∧
      convertReturnValue e O N ≠ cast N e) := by
  have hc : convertReturnValue e O N = .callExpr (.ident 0 N) [e] := by
    simp [convertReturnValue, hz, hn]
  refine ⟨hc, ?_, ?_⟩
  · intro hp
    rw [hc]
    simp [cast, hp]
  · intro hp
    have hcast : cast N e = .callExpr (.ident 0 ("(" ++ N ++ ")")) [e] := by
      simp [cast, hp]
    refine ⟨hcast, ?_⟩
    rw [hc, hcast]
    intro h
    injection h with h1 _
    injection h1 with _ h2
    exact paren_ne_self N h2.symm

/-- C20 at `x.Field` of type `string` converted to `W` and to `*W`. -/
theorem convertReturnValue_vs_cast_witness :
    convertReturnValue xField "string" "W" = cast "W" xField ∧
    convertReturnValue xField "string" "*W" ≠ cast "*W" xField :=
  ⟨(convertReturnValue_vs_cast xField "string" "W" rfl (by decide)).2.1 (by decide),
   ((convertReturnValue_vs_cast xField "string" "*W" rfl (by decide)).2.2 (by decide)).2⟩

/-! ## The rules of the upward walk -/

theorem findSlot_none (n : Nat) (slotAt : Nat → Ptr) (target : Ptr)
    (h : ∀ j, j < n → slotAt j ≠ target) : findSlot n slotAt target = none := by
  unfold findSlot
  rw [List.find?_eq_none]
  intro j hj
  have hlt : j < n := List.mem_range.1 hj
  simpa using h j hlt

theorem findSlot_some (n i : Nat) (slotAt : Nat → Ptr) (hi : i < n)
    (hinj : ∀ j, slotAt j = slotAt i → j = i) : findSlot n slotAt (slotAt i) = some i := by
  unfold findSlot
  induction n with
  | zero => omega
  | succ n ih =>
    rw [List.range_succ, List.find?_append]
    by_cases hlt : i < n
    · rw [ih hlt]
      rfl
    · have hin : i = n := by omega
      subst hin
      have hnone : List.find? (fun j => slotAt j == slotAt i) (List.range i) = none := by
        rw [List.find?_eq_none]
        intro j hj
        have hji : j < i := List.mem_range.1 hj
        have hne : slotAt j ≠ slotAt i := fun he => by
          have := hinj j he
          omega
        simpa using hne
      rw [hnone]
      simp

theorem getElem?_lt {α : Type} (l : List α) (i : Nat) (a : α) (h : l[i]? = some a) :
    i < l.length := by
  by_contra hlt
  rw [List.getElem?_eq_none (Nat.le_of_not_lt hlt)] at h
  cases h

/-- A reference that sits directly in a selector expression, outside its own
accessor, starts the walk at the parent of the selector with the type pair of
the object. -/
theorem patchTypeUsage_selector (N : String) (objType : TypesType) (root : Node) (s : Slot)
    (e : Ptr) (pos : Nat) (name originalType desiredType : String) (x sel : Expr)
    (hid : getAt root (s :: e) = some (.expr (.ident pos name)))
    (hin : insideGetter root name (s :: e) = false)
    (hpair : typePair objType N = some (originalType, desiredType))
    (hsel : getAt root e = some (.expr (.selectorExpr x sel))) :
    patchTypeUsage (some N) objType root (s :: e) = patch root e desiredType originalType e := by
  simp only [patchTypeUsage, hid, hin, hpair, findParentNode, hsel]
  rfl

/-- The call rule, tracked expression in argument position `i`. -/
theorem patch_callExpr_arg (root : Node) (sel c : Ptr) (d o : String) (fn a : Expr)
    (args : List Expr) (i : Nat) (hc : getAt root c = some (.expr (.callExpr fn args)))
    (ha : args[i]? = some a) :
    setAt root c (.expr (.callExpr fn (args.set i (cast o a))))
      = some (patch root sel d o (.args i :: c)) := by
  have hlt := getElem?_lt args i a ha
  have hfind : findSlot args.length (fun j => Slot.args j :: c) (Slot.args i :: c) = some i :=
    findSlot_some args.length i (fun j => Slot.args j :: c) hlt (fun j h => by simpa using h)
  have hchild : child (.expr (.callExpr fn args)) (.args i) = some (.expr a) := by
    simp [child, childExpr, ha]
  obtain ⟨m1, hm1, hset⟩ := castSlot_child root _ c (.args i) a o hc hchild
  have hm : m1 = .expr (.callExpr fn (args.set i (cast o a))) := by
    simp [setChild, setChildExpr, setEntry, hlt] at hm1
    exact hm1.symm
  subst hm
  rw [hset]
  simp only [patch, hc, hfind]

/-- The call rule, tracked expression invoked and the call on the right side
of the enclosing assignment. -/
theorem patch_callExpr_fun_assign (root : Node) (sel up : Ptr) (d o : String) (fn : Expr)
    (args lhs rhs : List Expr) (tok : Token) (j : Nat)
    (hc : getAt root (.rhs j :: up) = some (.expr (.callExpr fn args)))
    (hup : getAt root up = some (.stmt (.assignStmt lhs tok rhs))) :
    setAt root up (.stmt (.assignStmt lhs tok (rhs.set j (cast o (.callExpr fn args)))))
      = some (patch root sel d o (.fn :: .rhs j :: up)) := by
  have hj : rhs[j]? = some (.callExpr fn args) := by
    rw [getAt_cons, hup] at hc
    simpa [child, childStmt] using hc
  have hlt := getElem?_lt rhs j _ hj
  have hmiss : findSlot args.length (fun i => Slot.args i :: .rhs j :: up)
      (Slot.fn :: .rhs j :: up) = none :=
    findSlot_none _ _ _ (fun i _ h => by simp at h)
  have hfind : findSlot rhs.length (fun i => Slot.rhs i :: up) (Slot.rhs j :: up) = some j :=
    findSlot_some rhs.length j (fun i => Slot.rhs i :: up) hlt (fun i h => by simpa using h)
  have hchild : child (.stmt (.assignStmt lhs tok rhs)) (.rhs j)
      = some (.expr (.callExpr fn args)) := by
    simp [child, childStmt, hj]
  obtain ⟨m1, hm1, hset⟩ := castSlot_child root _ up (.rhs j) _ o hup hchild
  have hm : m1 = .stmt (.assignStmt lhs tok (rhs.set j (cast o (.callExpr fn args)))) := by
    simp [setChild, setChildStmt, setEntry, hlt] at hm1
    exact hm1.symm
  subst hm
  rw [hset]
  simp [patch, hc, hmiss, findParentNode, hup, hfind]

/-- The call rule, tracked expression invoked and the call an argument of the
enclosing call. -/
theorem patch_callExpr_fun_call (root : Node) (sel up : Ptr) (d o : String) (fn outerFn : Expr)
    (args outer : List Expr) (j : Nat)
    (hc : getAt root (.args j :: up) = some (.expr (.callExpr fn args)))
    (hup : getAt root up = some (.expr (.callExpr outerFn outer))) :
    setAt root up (.expr (.callExpr outerFn (outer.set j (cast o (.callExpr fn args)))))
      = some (patch root sel d o (.fn :: .args j :: up)) := by
  have hj : outer[j]? = some (.callExpr fn args) := by
    rw [getAt_cons, hup] at hc
    simpa [child, childExpr] using hc
  have hlt := getElem?_lt outer j _ hj
  have hmiss : findSlot args.length (fun i => Slot.args i :: .args j :: up)
      (Slot.fn :: .args j :: up) = none :=
    findSlot_none _ _ _ (fun i _ h => by simp at h)
  have hfind : findSlot outer.length (fun i => Slot.args i :: up) (Slot.args j :: up) = some j :=
    findSlot_some outer.length j (fun i => Slot.args i :: up) hlt (fun i h => by simpa using h)
  have hchild : child (.expr (.callExpr outerFn outer)) (.args j)
      = some (.expr (.callExpr fn args)) := by
    simp [child, childExpr, hj]
  obtain ⟨m1, hm1, hset⟩ := castSlot_child root _ up (.args j) _ o hup hchild
  have hm : m1 = .expr (.callExpr outerFn (outer.set j (cast o (.callExpr fn args)))) := by
    simp [setChild, setChildExpr, setEntry, hlt] at hm1
    exact hm1.symm
  subst hm
  rw [hset]
  simp [patch, hc, hmiss, findParentNode, hup, hfind]

/-- The assignment rule, tracked expression on the left at position `i`. -/
theorem patch_assign_lhs (root : Node) (sel a : Ptr) (d o : String) (lhs rhs : List Expr)
    (tok : Token) (i : Nat) (l r : Expr)
    (ha : getAt root a = some (.stmt (.assignStmt lhs tok rhs)))
    (hlen : lhs.length = rhs.length) (hl : lhs[i]? = some l) (hr : rhs[i]? = some r) :
    setAt root a (.stmt (.assignStmt lhs tok (rhs.set i (cast d r))))
      = some (patch root sel d o (.lhs i :: a)) := by
  have hlt := getElem?_lt rhs i r hr
  have hltl := getElem?_lt lhs i l hl
  have hfind : findSlot lhs.length (fun j => Slot.lhs j :: a) (Slot.lhs i :: a) = some i :=
    findSlot_some lhs.length i (fun j => Slot.lhs j :: a) hltl (fun j h => by simpa using h)
  have hchild : child (.stmt (.assignStmt lhs tok rhs)) (.rhs i) = some (.expr r) := by
    simp [child, childStmt, hr]
  obtain ⟨m1, hm1, hset⟩ := castSlot_child root _ a (.rhs i) r d ha hchild
  have hm : m1 = .stmt (.assignStmt lhs tok (rhs.set i (cast d r))) := by
    simp [setChild, setChildStmt, setEntry, hlt] at hm1
    exact hm1.symm
  subst hm
  rw [hset]
  rw [hlen] at hfind
  simp [patch, ha, hlen, hfind]

/-- The assignment rule, tracked expression on the right at position `i`. -/
theorem patch_assign_rhs (root : Node) (sel a : Ptr) (d o : String) (lhs rhs : List Expr)
    (tok : Token) (i : Nat) (r : Expr)
    (ha : getAt root a = some (.stmt (.assignStmt lhs tok rhs)))
    (hlen : lhs.length = rhs.length) (hr : rhs[i]? = some r) :
    setAt root a (.stmt (.assignStmt lhs tok (rhs.set i (cast o r))))
      = some (patch root sel d o (.rhs i :: a)) := by
  have hlt := getElem?_lt rhs i r hr
  have hmiss : findSlot rhs.length (fun j => Slot.lhs j :: a) (Slot.rhs i :: a) = none :=
    findSlot_none _ _ _ (fun j _ h => by simp at h)
  have hfind : findSlot rhs.length (fun j => Slot.rhs j :: a) (Slot.rhs i :: a) = some i :=
    findSlot_some rhs.length i (fun j => Slot.rhs j :: a) hlt (fun j h => by simpa using h)
  have hchild : child (.stmt (.assignStmt lhs tok rhs)) (.rhs i) = some (.expr r) := by
    simp [child, childStmt, hr]
  obtain ⟨m1, hm1, hset⟩ := castSlot_child root _ a (.rhs i) r o ha hchild
  have hm : m1 = .stmt (.assignStmt lhs tok (rhs.set i (cast o r))) := by
    simp [setChild, setChildStmt, setEntry, hlt] at hm1
    exact hm1.symm
  subst hm
  rw [hset]
  simp [patch, ha, hlen, hmiss, hfind]

/-- The assignment rule on sides of different lengths: nothing changes. -/
theorem patch_assign_length (root : Node) (sel a : Ptr) (d o : String) (lhs rhs : List Expr)
    (tok : Token) (s : Slot) (ha : getAt root a = some (.stmt (.assignStmt lhs tok rhs)))
    (hlen : lhs.length ≠ rhs.length) : patch root sel d o (s :: a) = root := by
  simp [patch, ha, hlen]

/-- The binary rule, tracked expression the left operand. -/
theorem patch_binary_x (root : Node) (sel b : Ptr) (d o : String) (x y : Expr) (op : Token)
    (hb : getAt root b = some (.expr (.binaryExpr x op y))) :
    setAt root b (.expr (.binaryExpr (cast o x) op y))
      = some (patch root sel d o (.x :: b)) := by
  obtain ⟨m1, hm1, hset⟩ := castSlot_child root _ b .x x o hb rfl
  cases hm1
  rw [hset]
  simp [patch, hb]

/-- The binary rule, tracked expression the right operand. -/
theorem patch_binary_y (root : Node) (sel b : Ptr) (d o : String) (x y : Expr) (op : Token)
    (hb : getAt root b = some (.expr (.binaryExpr x op y))) :
    setAt root b (.expr (.binaryExpr x op (cast o y)))
      = some (patch root sel d o (.y :: b)) := by
  obtain ⟨m1, hm1, hset⟩ := castSlot_child root _ b .y y o hb rfl
  cases hm1
  rw [hset]
  simp [patch, hb]

/-- The dereference rule. -/
theorem patch_starExpr (root : Node) (sel node : Ptr) (d o : String) (s : Slot) (x : Expr)
    (hn : getAt root node = some (.expr (.starExpr x))) :
    patch root sel d o (s :: node)
      = patch root sel (trimPrefix d "*") (trimPrefix o "*") node := by
  rw [patch]
  simp only [hn]

/-- The address-of rule. -/
theorem patch_unaryExpr_and (root : Node) (sel node : Ptr) (d o : String) (s : Slot) (x : Expr)
    (hn : getAt root node = some (.expr (.unaryExpr .AND x))) :
    patch root sel d o (s :: node) = patch root sel ("*" ++ d) ("*" ++ o) node := by
  rw [patch]
  simp [hn]

theorem getAt_child (root m c : Node) (p : Ptr) (s : Slot) (hm : getAt root p = some m)
    (hc : child m s = some c) : getAt root (s :: p) = some c := by
  rw [getAt_cons, hm]
  exact hc

/-! ## The usage-site patcher on calls, assignments and operations -/

/-- C11: in a call, a tracked expression in argument position `i` is replaced
by its cast to the original type, for any state of the walk and in particular
when the reference sits directly in a selector that is that argument; when the
selector of the reference is the function invoked and the call is on the right
side of the enclosing assignment, or an argument of the enclosing call, that
outer position is replaced by the cast of the call to the original type.
Nothing else changes. -/
theorem patchTypeUsage_callExpr (N : String) (objType : TypesType) (root : Node) (c : Ptr)
    (fn : Expr) (args : List Expr) (originalType desiredType : String)
    (hc : getAt root c = some (.expr (.callExpr fn args)))
    (hpair : typePair objType N = some (originalType, desiredType)) :
    (∀ sel d o i a, args[i]? = some a →
      setAt root c (.expr (.callExpr fn (args.set i (cast o a))))
        = some (patch root sel d o (.args i :: c))) ∧
    (∀ s i x sl pos name, args[i]? = some (.selectorExpr x sl) →
      getAt root (s :: .args i :: c) = some (.expr (.ident pos name)) →
      insideGetter root name (s :: .args i :: c) = false →
      setAt root c (.expr (.callExpr fn (args.set i (cast originalType (.selectorExpr x sl)))))
        = some (patchTypeUsage (some N) objType root (s :: .args i :: c))) ∧
    (∀ s x sl pos name up j lhs tok rhs, fn = .selectorExpr x sl → c = .rhs j :: up →
      getAt root up = some (.stmt (.assignStmt lhs tok rhs)) →
      getAt root (s :: .fn :: c) = some (.expr (.ident pos name)) →
      insideGetter root name (s :: .fn :: c) = false →
      setAt root up
          (.stmt (.assignStmt lhs tok (rhs.set j (cast originalType (.callExpr fn args)))))
        = some (patchTypeUsage (some N) objType root (s :: .fn :: c))) ∧
    (∀ s x sl pos name up j outerFn outer, fn = .selectorExpr x sl → c = .args j :: up →
      getAt root up = some (.expr (.callExpr outerFn outer)) →
      getAt root (s :: .fn :: c) = some (.expr (.ident pos name)) →
      insideGetter root name (s :: .fn :: c) = false →
      setAt root up
          (.expr (.callExpr outerFn (outer.set j (cast originalType (.callExpr fn args)))))
        = some (patchTypeUsage (some N) objType root (s :: .fn :: c))) := by
  refine ⟨?_, ?_, ?_, ?_⟩
  · intro sel d o i a ha
    exact patch_callExpr_arg root sel c d o fn a args i hc ha
  · intro s i x sl pos name ha hid hin
    have hsel : getAt root (.args i :: c) = some (.expr (.selectorExpr x sl)) :=
      getAt_child root _ _ c (.args i) hc (by simp [child, childExpr, ha])
    rw [patchTypeUsage_selector N objType root s _ pos name originalType desiredType x sl
      hid hin hpair hsel]
    exact patch_callExpr_arg root _ c desiredType originalType fn _ args i hc ha
  · intro s x sl pos name up j lhs tok rhs hfn hcup hup hid hin
    subst hcup
    have hsel : getAt root (.fn :: .rhs j :: up) = some (.expr (.selectorExpr x sl)) :=
      getAt_child root _ _ _ .fn hc (by simp [child, childExpr, hfn])
    rw [patchTypeUsage_selector N objType root s _ pos name originalType desiredType x sl
      hid hin hpair hsel]
    exact patch_callExpr_fun_assign root _ up desiredType originalType fn args lhs rhs tok j
      hc hup
  · intro s x sl pos name up j outerFn outer hfn hcup hup hid hin
    subst hcup
    have hsel : getAt root (.fn :: .args j :: up) = some (.expr (.selectorExpr x sl)) :=
      getAt_child root _ _ _ .fn hc (by simp [child, childExpr, hfn])
    rw [patchTypeUsage_selector N objType root s _ pos name originalType desiredType x sl
      hid hin hpair hsel]
    exact patch_callExpr_fun_call root _ up desiredType originalType fn outerFn args outer j
      hc hup

/-- C11 at `f(x.Field)` with `Field` of type `string` overridden to `W`: the
call becomes `f(string(x.Field))`. -/
theorem patchTypeUsage_callExpr_witness :
    patchTypeUsage (some "W") (.basic "string") callF [.sel, .args 0, .x]
      = .stmt (.exprStmt (.callExpr (.ident 1 "f") [.callExpr (.ident 0 "string") [xField]])) := by
  have h := (patchTypeUsage_callExpr "W" (.basic "string") callF [.x] (.ident 1 "f") [xField]
    "string" "W" rfl rfl).2.1 .sel 0 (.ident 31 "x") (.ident 33 "Field") 33 "Field" rfl rfl rfl
  have h1 : setAt callF [.x] (.expr (.callExpr (.ident 1 "f")
      ([xField].set 0 (cast "string" (.selectorExpr (.ident 31 "x") (.ident 33 "Field"))))))
      = some (.stmt (.exprStmt
          (.callExpr (.ident 1 "f") [.callExpr (.ident 0 "string") [xField]]))) := rfl
  rw [h1] at h
  exact (Option.some.inj h).symm

/-- C14: in an assignment with sides of equal length, a tracked expression at
position `i` on the left makes the right side at position `i` its cast to the
desired type, for any state of the walk and in particular when the reference
sits directly in a selector that is that left-side expression; the left side
and the other positions are kept. An assignment with sides of different
lengths is left as it is. -/
theorem patchTypeUsage_assign_lhs (N : String) (objType : TypesType) (root : Node) (a : Ptr)
    (lhs rhs : List Expr) (tok : Token) (originalType desiredType : String)
    (ha : getAt root a = some (.stmt (.assignStmt lhs tok rhs)))
    (hpair : typePair objType N = some (originalType, desiredType)) :
    (∀ sel d o i l r, lhs.length = rhs.length → lhs[i]? = some l → rhs[i]? = some r →
      setAt root a (.stmt (.assignStmt lhs tok (rhs.set i (cast d r))))
        = some (patch root sel d o (.lhs i :: a))) ∧
    (∀ s i x sl r pos name, lhs.length = rhs.length → lhs[i]? = some (.selectorExpr x sl) →
      rhs[i]? = some r →
      getAt root (s :: .lhs i :: a) = some (.expr (.ident pos name)) →
      insideGetter root name (s :: .lhs i :: a) = false →
      setAt root a (.stmt (.assignStmt lhs tok (rhs.set i (cast desiredType r))))
        = some (patchTypeUsage (some N) objType root (s :: .lhs i :: a))) ∧
    (∀ sel d o t, lhs.length ≠ rhs.length → patch root sel d o (t :: a) = root) ∧
    (∀ s t x sl pos name, lhs.length ≠ rhs.length →
      getAt root (t :: a) = some (.expr (.selectorExpr x sl)) →
      getAt root (s :: t :: a) = some (.expr (.ident pos name)) →
      insideGetter root name (s :: t :: a) = false →
      patchTypeUsage (some N) objType root (s :: t :: a) = root) := by
  refine ⟨?_, ?_, ?_, ?_⟩
  · intro sel d o i l r hlen hl hr
    exact patch_assign_lhs root sel a d o lhs rhs tok i l r ha hlen hl hr
  · intro s i x sl r pos name hlen hl hr hid hin
    have hsel : getAt root (.lhs i :: a) = some (.expr (.selectorExpr x sl)) :=
      getAt_child root _ _ a (.lhs i) ha (by simp [child, childStmt, hl])
    rw [patchTypeUsage_selector N objType root s _ pos name originalType desiredType x sl
      hid hin hpair hsel]
    exact patch_assign_lhs root _ a desiredType originalType lhs rhs tok i _ r ha hlen hl hr
  · intro sel d o t hlen
    exact patch_assign_length root sel a d o lhs rhs tok t ha hlen
  · intro s t x sl pos name hlen hsel hid hin
    rw [patchTypeUsage_selector N objType root s _ pos name originalType desiredType x sl
      hid hin hpair hsel]
    exact patch_assign_length root _ a desiredType originalType lhs rhs tok t ha hlen

/-- C14 at `x.Field = v` with `Field` of type `string` overridden to `W`: the
statement becomes `x.Field = W(v)`. -/
theorem patchTypeUsage_assign_lhs_witness :
    patchTypeUsage (some "W") (.basic "string") assignField [.sel, .lhs 0]
      = .stmt (.assignStmt [xField] .ASSIGN [.callExpr (.ident 0 "W") [.ident 40 "v"]]) := by
  have h := (patchTypeUsage_assign_lhs "W" (.basic "string") assignField [] [xField]
    [.ident 40 "v"] .ASSIGN "string" "W" rfl rfl).2.1 .sel 0 (.ident 31 "x") (.ident 33 "Field")
    (.ident 40 "v") 33 "Field" rfl rfl rfl rfl rfl
  have h1 : setAt assignField [] (.stmt (.assignStmt [xField] .ASSIGN
      ([Expr.ident 40 "v"].set 0 (cast "W" (.ident 40 "v")))))
      = some (.stmt (.assignStmt [xField] .ASSIGN
          [.callExpr (.ident 0 "W") [.ident 40 "v"]])) := rfl
  rw [h1] at h
  exact (Option.some.inj h).symm

/-- C15, as stated, fails: on `v = x.Field` the left side `v` is kept and the
tracked right side itself is cast, giving `v = string(x.Field)` and not
`string(v) = x.Field`. -/
theorem patchTypeUsage_assign_rhs_keeps_lhs :
    patchTypeUsage (some "W") (.basic "string") assignRead [.sel, .rhs 0]
      = .stmt (.assignStmt [.ident 20 "v"] .ASSIGN [.callExpr (.ident 0 "string") [xField]]) ∧
    patchTypeUsage (some "W") (.basic "string") assignRead [.sel, .rhs 0]
      ≠ .stmt (.assignStmt [cast "string" (.ident 20 "v")] .ASSIGN [xField]) := by
  have h : patchTypeUsage (some "W") (.basic "string") assignRead [.sel, .rhs 0]
      = .stmt (.assignStmt [.ident 20 "v"] .ASSIGN [.callExpr (.ident 0 "string") [xField]]) :=
    rfl
  refine ⟨h, ?_⟩
  rw [h]
  intro hne
  injection hne with h1
  injection h1 with h2 _ _
  injection h2 with h3 _
  simp [cast] at h3

/-- C15, amended: in an assignment with sides of equal length, a tracked
expression at position `i` on the right is itself replaced by its cast to the
original type, for any state of the walk and in particular when the reference
sits directly in a selector that is that right-side expression; the left side
and the other positions are kept. -/
theorem patchTypeUsage_assign_rhs (N : String) (objType : TypesType) (root : Node) (a : Ptr)
    (lhs rhs : List Expr) (tok : Token) (originalType desiredType : String)
    (ha : getAt root a = some (.stmt (.assignStmt lhs tok rhs)))
    (hpair : typePair objType N = some (originalType, desiredType))
    (hlen : lhs.length = rhs.length) :
    (∀ sel d o i r, rhs[i]? = some r →
      setAt root a (.stmt (.assignStmt lhs tok (rhs.set i (cast o r))))
        = some (patch root sel d o (.rhs i :: a))) ∧
    (∀ s i x sl pos name, rhs[i]? = some (.selectorExpr x sl) →
      getAt root (s :: .rhs i :: a) = some (.expr (.ident pos name)) →
      insideGetter root name (s :: .rhs i :: a) = false →
      setAt root a
          (.stmt (.assignStmt lhs tok (rhs.set i (cast originalType (.selectorExpr x sl)))))
        = some (patchTypeUsage (some N) objType root (s :: .rhs i :: a))) := by
  refine ⟨?_, ?_⟩
  · intro sel d o i r hr
    exact patch_assign_rhs root sel a d o lhs rhs tok i r ha hlen hr
  · intro s i x sl pos name hr hid hin
    have hsel : getAt root (.rhs i :: a) = some (.expr (.selectorExpr x sl)) :=
      getAt_child root _ _ a (.rhs i) ha (by simp [child, childStmt, hr])
    rw [patchTypeUsage_selector N objType root s _ pos name originalType desiredType x sl
      hid hin hpair hsel]
    exact patch_assign_rhs root _ a desiredType originalType lhs rhs tok i _ ha hlen hr

/-- C15, amended, at `v = x.Field` with `Field` of type `string` overridden to
`W`: the statement becomes `v = string(x.Field)`. -/
theorem patchTypeUsage_assign_rhs_witness :
    patchTypeUsage (some "W") (.basic "string") assignRead [.sel, .rhs 0]
      = .stmt (.assignStmt [.ident 20 "v"] .ASSIGN [.callExpr (.ident 0 "string") [xField]]) := by
  have h := (patchTypeUsage_assign_rhs "W" (.basic "string") assignRead [] [.ident 20 "v"]
    [xField] .ASSIGN "string" "W" rfl rfl rfl).2 .sel 0 (.ident 31 "x") (.ident 33 "Field")
    33 "Field" rfl rfl rfl
  have h1 : setAt assignRead [] (.stmt (.assignStmt [.ident 20 "v"] .ASSIGN
      ([xField].set 0 (cast "string" (.selectorExpr (.ident 31 "x") (.ident 33 "Field"))))))
      = some (.stmt (.assignStmt [.ident 20 "v"] .ASSIGN
          [.callExpr (.ident 0 "string") [xField]])) := rfl
  rw [h1] at h
  exact (Option.some.inj h).symm

/-- C18: in a binary operation, the operand that is the tracked expression is
replaced by its cast to the original type, for any state of the walk and in
particular when the reference sits directly in a selector that is that
operand; the other operand and the operator are kept. -/
theorem patchTypeUsage_binaryExpr (N : String) (objType : TypesType) (root : Node) (b : Ptr)
    (x y : Expr) (op : Token) (originalType desiredType : String)
    (hb : getAt root b = some (.expr (.binaryExpr x op y)))
    (hpair : typePair objType N = some (originalType, desiredType)) :
    (∀ sel d o, setAt root b (.expr (.binaryExpr (cast o x) op y))
      = some (patch root sel d o (.x :: b))) ∧
    (∀ sel d o, setAt root b (.expr (.binaryExpr x op (cast o y)))
      = some (patch root sel d o (.y :: b))) ∧
    (∀ s x1 sl pos name, x = .selectorExpr x1 sl →
      getAt root (s :: .x :: b) = some (.expr (.ident pos name)) →
      insideGetter root name (s :: .x :: b) = false →
      setAt root b (.expr (.binaryExpr (cast originalType x) op y))
        = some (patchTypeUsage (some N) objType root (s :: .x :: b))) ∧
    (∀ s y1 sl pos name, y = .selectorExpr y1 sl →
      getAt root (s :: .y :: b) = some (.expr (.ident pos name)) →
      insideGetter root name (s :: .y :: b) = false →
      setAt root b (.expr (.binaryExpr x op (cast originalType y)))
        = some (patchTypeUsage (some N) objType root (s :: .y :: b))) := by
  refine ⟨?_, ?_, ?_, ?_⟩
  · intro sel d o
    exact patch_binary_x root sel b d o x y op hb
  · intro sel d o
    exact patch_binary_y root sel b d o x y op hb
  · intro s x1 sl pos name hx hid hin
    have hsel : getAt root (.x :: b) = some (.expr (.selectorExpr x1 sl)) :=
      getAt_child root _ _ b .x hb (by simp [child, childExpr, hx])
    rw [patchTypeUsage_selector N objType root s _ pos name originalType desiredType x1 sl
      hid hin hpair hsel]
    exact patch_binary_x root _ b desiredType originalType x y op hb
  · intro s y1 sl pos name hy hid hin
    have hsel : getAt root (.y :: b) = some (.expr (.selectorExpr y1 sl)) :=
      getAt_child root _ _ b .y hb (by simp [child, childExpr, hy])
    rw [patchTypeUsage_selector N objType root s _ pos name originalType desiredType y1 sl
      hid hin hpair hsel]
    exact patch_binary_y root _ b desiredType originalType x y op hb

/-- C18 at `ok = x.Field == y` with `Field` of type `string` overridden to `W`:
the statement becomes `ok = string(x.Field) == y`. -/
theorem patchTypeUsage_binaryExpr_witness :
    patchTypeUsage (some "W") (.basic "string") compareField [.sel, .x, .rhs 0]
      = .stmt (.assignStmt [.ident 10 "ok"] .ASSIGN
          [.binaryExpr (.callExpr (.ident 0 "string") [xField]) .EQL (.ident 50 "y")]) := by
  have h := (patchTypeUsage_binaryExpr "W" (.basic "string") compareField [.rhs 0] xField
    (.ident 50 "y") .EQL "string" "W" rfl rfl).2.2.1 .sel (.ident 31 "x") (.ident 33 "Field")
    33 "Field" rfl rfl rfl
  have h1 : setAt compareField [.rhs 0]
      (.expr (.binaryExpr (cast "string" xField) .EQL (.ident 50 "y")))
      = some (.stmt (.assignStmt [.ident 10 "ok"] .ASSIGN
          [.binaryExpr (.callExpr (.ident 0 "string") [xField]) .EQL (.ident 50 "y")])) := rfl
  rw [h1] at h
  exact (Option.some.inj h).symm

/-- C16: at a dereference node the walk strips one leading pointer marker from
the desired and the original type, at an address-of node it prepends one to
both, and in each case it goes on with that node as the tracked expression,
so that the next rule is applied at the node's parent with the adjusted pair.
For a field of type `O`, `f(&x.Field)` becomes `f((*O)(&x.Field))`; for a
field of type `*O` overridden to `N`, `*x.Field = v` becomes
`*x.Field = N(v)`. -/
theorem patch_pointer_rules (root : Node) (sel node : Ptr) (d o : String) (s : Slot)
    (x : Expr) :
    (getAt root node = some (.expr (.starExpr x)) →
      patch root sel d o (s :: node)
        = patch root sel (trimPrefix d "*") (trimPrefix o "*") node) ∧
    (getAt root node = some (.expr (.unaryExpr .AND x)) →
      patch root sel d o (s :: node) = patch root sel ("*" ++ d) ("*" ++ o) node) ∧
    trimPrefix ("*" ++ d) "*" = d ∧
    patchTypeUsage (some "N") (.basic "O") callAddr [.sel, .x, .args 0, .x]
      = .stmt (.exprStmt (.callExpr (.ident 1 "f")
          [.callExpr (.ident 0 "(*O)") [.unaryExpr .AND xField]])) ∧
    patchTypeUsage (some "N") (.pointer "O") assignDeref [.sel, .x, .lhs 0]
      = .stmt (.assignStmt [.starExpr xField] .ASSIGN
          [.callExpr (.ident 0 "N") [.ident 40 "v"]]) :=
  ⟨patch_starExpr root sel node d o s x, patch_unaryExpr_and root sel node d o s x,
    trimPrefix_star_append d, rfl, rfl⟩

/-- C16 on `*x.Field = v` and `f(&x.Field)`: the walk from the selector passes
the dereference, respectively the address-of, with the adjusted pair. -/
theorem patch_pointer_rules_witness :
    patch assignDeref [.x, .lhs 0] "*N" "*O" [.x, .lhs 0]
      = patch assignDeref [.x, .lhs 0] (trimPrefix "*N" "*") (trimPrefix "*O" "*") [.lhs 0] ∧
    patch callAddr [.x, .args 0, .x] "N" "O" [.x, .args 0, .x]
      = patch callAddr [.x, .args 0, .x] ("*" ++ "N") ("*" ++ "O") [.args 0, .x] :=
  ⟨(patch_pointer_rules assignDeref [.x, .lhs 0] [.lhs 0] "*N" "*O" .x xField).1 rfl,
   (patch_pointer_rules callAddr [.x, .args 0, .x] [.args 0, .x] "N" "O" .x xField).2.1 rfl⟩

/-! ## The accessor pre-check -/

theorem childExpr_ne_funcDecl (e : Expr) (s : Slot) (d : FuncDecl) :
    childExpr e s ≠ some (.funcDecl d) := by
  intro h
  cases e <;> cases s <;> simp [childExpr, Option.map_eq_some', Option.bind_eq_some] at h

theorem childStmt_ne_funcDecl (t : Stmt) (s : Slot) (d : FuncDecl) :
    childStmt t s ≠ some (.funcDecl d) := by
  intro h
  cases t <;> cases s <;> simp [childStmt, Option.map_eq_some'] at h

/-- No node has a function declaration as a child: function declarations do
not nest. -/
theorem child_ne_funcDecl (m : Node) (s : Slot) (d : FuncDecl) :
    child m s ≠ some (.funcDecl d) := by
  cases m with
  | expr e => exact childExpr_ne_funcDecl e s d
  | stmt t => exact childStmt_ne_funcDecl t s d
  | field f =>
    obtain ⟨names, type⟩ := f
    intro h
    cases s <;> simp [child] at h
  | funcDecl n =>
    intro h
    cases s <;> simp [child, childFuncDecl, Option.map_eq_some', Option.bind_eq_some] at h
  | other k =>
    intro h
    simp [child] at h

theorem getAt_cons_ne_funcDecl (root : Node) (s : Slot) (p : Ptr) (d : FuncDecl) :
    getAt root (s :: p) ≠ some (.funcDecl d) := by
  rw [getAt_cons]
  cases getAt root p with
  | none => simp
  | some m => exact child_ne_funcDecl m s d

/-- Below a function declaration the pre-check loop ends at that declaration
and compares its name. -/
theorem insideGetter_funcDecl (n : FuncDecl) (idName : String) (s : Slot) (p : Ptr) :
    insideGetter (.funcDecl n) idName (s :: p) = (n.name == "Get" ++ idName) := by
  induction p generalizing s with
  | nil => rfl
  | cons t p ih =>
    have hne := getAt_cons_ne_funcDecl (.funcDecl n) t p
    rw [insideGetter]
    cases h : getAt (.funcDecl n) (t :: p) with
    | none => exact ih t
    | some m =>
      cases m with
      | funcDecl d => exact absurd h (hne d)
      | expr e => exact ih t
      | stmt e => exact ih t
      | field e => exact ih t
      | other e => exact ih t

/-- C17: a reference to an overridden symbol named `F` anywhere inside the
function declaration named `Get` followed by `F` leaves the whole declaration
as it is, whatever the context of the reference. -/
theorem patchTypeUsage_inside_getter (fieldTypes : Option String) (objType : TypesType)
    (n : FuncDecl) (id : Ptr) (pos : Nat) (F : String) (hname : n.name = "Get" ++ F)
    (hid : getAt (.funcDecl n) id = some (.expr (.ident pos F))) :
    patchTypeUsage fieldTypes objType (.funcDecl n) id = .funcDecl n := by
  cases id with
  | nil => simp [getAt, getPath] at hid
  | cons s p =>
    have hin : insideGetter (.funcDecl n) F (s :: p) = true := by
      rw [insideGetter_funcDecl, hname]
      simp
    cases fieldTypes with
    | none => rfl
    | some desiredType => simp only [patchTypeUsage, hid, hin, if_true]

/-- C17 at `func (x *Msg) GetField() string { return f(x.Field) }`: the
reference `Field` in the argument of the call is left alone. -/
theorem patchTypeUsage_inside_getter_witness :
    patchTypeUsage (some "W") (.basic "string") (.funcDecl getFieldDecl)
      [.sel, .args 0, .results 0, .body 0] = .funcDecl getFieldDecl :=
  patchTypeUsage_inside_getter (some "W") (.basic "string") getFieldDecl
    [.sel, .args 0, .results 0, .body 0] 33 "Field" rfl rfl

end Patch
